import Mathlib

/-!
# Verification of the syllabus-to-calendar core (`src/app.py`)

This file is a shallow embedding, in Lean 4, of the decision logic of the
repository's single source file `app.py`:

* `extract_events_with_ollama` — oracle-response repair and JSON parsing;
* `add_events_to_calendar`     — the sync loop (date resolution via
  `dateutil.parser.parse`, Google-Calendar insert-request construction,
  per-item error handling, `HttpError` handling);
* the date-resolution step `date_parser.parse(f"{date_str} {year}")`, which
  is a call into the third-party `python-dateutil` library (version 2.9).

Python's side effects are made explicit: the oracle call and the calendar
insert call are parameters (an oracle behaviour value, and a success/failure
schedule for insert calls), `print` logging becomes an explicit list, and
`datetime.now()` becomes an explicit `today` argument.

## The dateutil fragment

`dateutil.parser.parse` is embedded as a faithful translation of the
library's `_timelex` tokenizer, `_parse`, `_parse_numeric_token`, `_ymd`,
`resolve_ymd`, `convertyear`, `validate` and `_build_naive`, restricted to
the following domain (inputs outside the domain make the embedded parser
fail, i.e. the embedding is a conservative restriction of the library):

* ASCII input only, without `'.'` and `','` characters (so the tokenizer's
  decimal/dot states are never entered, and no fractional values arise);
* weekday tokens (`Mon`..`Sunday`), timezone names (uppercase tokens with a
  set hour) and numeric timezone offsets (`+`/`-` after a set hour) are
  rejected instead of being interpreted.

Everything else — month names including `"Sept"`, jump tokens, `h`/`m`/`s`
unit labels, `am`/`pm`, `HH:MM[:SS]`, slash/dash-separated dates, 6/8-digit
date blobs, the `YMD` labelling rules (a >2-digit or >100-valued member is
labelled as the year), `could_be_day`, the positional `resolve_ymd` rules,
two-digit-year conversion, and `_build_naive`'s use of the `default` date
(month/day defaults and the end-of-month clamp) — is translated directly
from the library source.

`parserinfo._year` (set at import time from the local clock) is identified
with `today.year`: the application parses immediately after import, with
`datetime.now()` as both the appended reference year and (inside `parse`)
the default date.
-/

namespace SylCal

/-! ## ASCII character classes (Python `str.isdigit`/`isalpha`/`isspace`,
restricted to ASCII) -/

def isDigitCh (c : Char) : Bool := 48 ≤ c.toNat && c.toNat ≤ 57

def isAlphaCh (c : Char) : Bool :=
  (97 ≤ c.toNat && c.toNat ≤ 122) || (65 ≤ c.toNat && c.toNat ≤ 90)

def isUpperCh (c : Char) : Bool := 65 ≤ c.toNat && c.toNat ≤ 90

def isSpaceCh (c : Char) : Bool :=
  c = ' ' || c = '\t' || c = '\n' || c = '\x0b' || c = '\x0c' || c = '\r'

def toLowerCh (c : Char) : Char :=
  if isUpperCh c then Char.ofNat (c.toNat + 32) else c

def lowerTok (t : List Char) : List Char := t.map toLowerCh

def natOfDigits (t : List Char) : Nat :=
  t.foldl (fun a c => a * 10 + (c.toNat - 48)) 0

/-- Decimal digit character of a value `< 10`. -/
def digitChar (n : Nat) : Char := Char.ofNat (48 + n)

def natDigitsGo : Nat → Nat → List Char → List Char
  | 0, _, acc => acc
  | fuel + 1, n, acc =>
    if n = 0 then acc else natDigitsGo fuel (n / 10) (digitChar (n % 10) :: acc)

/-- Decimal digit string of a natural number (Python `str(n)` for `n ≥ 0`). -/
def natDigits (n : Nat) : List Char :=
  if n = 0 then ['0'] else natDigitsGo (n + 1) n []

/-! ## The `_timelex` tokenizer (restricted: rejects `'.'`, `','` and
non-ASCII characters).  A token is a maximal run of letters, a maximal run
of digits, a single `' '` for each whitespace character, or a single other
character. -/

def takeRun (p : Char → Bool) : List Char → (List Char × List Char)
  | [] => ([], [])
  | c :: cs =>
    if p c then
      let r := takeRun p cs
      (c :: r.1, r.2)
    else ([], c :: cs)

def tokenizeGo : Nat → List Char → Option (List (List Char))
  | 0, _ => none
  | _, [] => some []
  | fuel + 1, c :: cs =>
    if c = '.' || c = ',' || 128 ≤ c.toNat then none
    else if isAlphaCh c then
      let r := takeRun isAlphaCh cs
      (tokenizeGo fuel r.2).map ((c :: r.1) :: ·)
    else if isDigitCh c then
      let r := takeRun isDigitCh cs
      (tokenizeGo fuel r.2).map ((c :: r.1) :: ·)
    else if isSpaceCh c then
      (tokenizeGo fuel cs).map ([' '] :: ·)
    else
      (tokenizeGo fuel cs).map ([c] :: ·)

def tokenize (s : List Char) : Option (List (List Char)) :=
  tokenizeGo (s.length + 1) s

/-! ## Calendar arithmetic (Python `calendar.isleap` / `monthrange`) -/

def isLeap (y : Nat) : Bool := (y % 4 = 0 && ¬ y % 100 = 0) || y % 400 = 0

/-- `calendar.monthrange(y, m)[1]`; `none` models `IllegalMonthError`. -/
def daysInMonth (y m : Nat) : Option Nat :=
  if m = 1 || m = 3 || m = 5 || m = 7 || m = 8 || m = 10 || m = 12 then some 31
  else if m = 4 || m = 6 || m = 9 || m = 11 then some 30
  else if m = 2 then some (if isLeap y then 29 else 28)
  else none

/-- A calendar date, as produced by `datetime.now()` (date part). -/
structure Date3 where
  year : Nat
  month : Nat
  day : Nat
deriving Repr, DecidableEq

/-- A resolved `datetime` value (microseconds are always 0 in the embedded
domain, so they are omitted). -/
structure PyDateTime where
  year : Nat
  month : Nat
  day : Nat
  hour : Nat
  minute : Nat
  second : Nat
deriving Repr, DecidableEq

/-- `datetime` field validation, as enforced by `datetime.replace`. -/
def validDateTime (dt : PyDateTime) : Bool :=
  1 ≤ dt.year && dt.year ≤ 9999 &&
  1 ≤ dt.month && dt.month ≤ 12 &&
  1 ≤ dt.day && dt.day ≤ (daysInMonth dt.year dt.month).getD 0 &&
  dt.hour ≤ 23 && dt.minute ≤ 59 && dt.second ≤ 59

/-- A `today` value is well formed when it denotes an actual date. -/
def validDate3 (d : Date3) : Bool :=
  1 ≤ d.year && d.year ≤ 9999 &&
  1 ≤ d.month && d.month ≤ 12 &&
  1 ≤ d.day && d.day ≤ (daysInMonth d.year d.month).getD 0

/-! ## `parserinfo` word tables (dateutil defaults) -/

def monthTable : List (String × Nat) :=
  [("jan", 1), ("january", 1), ("feb", 2), ("february", 2), ("mar", 3), ("march", 3),
   ("apr", 4), ("april", 4), ("may", 5), ("jun", 6), ("june", 6), ("jul", 7), ("july", 7),
   ("aug", 8), ("august", 8), ("sep", 9), ("sept", 9), ("september", 9), ("oct", 10),
   ("october", 10), ("nov", 11), ("november", 11), ("dec", 12), ("december", 12)]

def monthWordVal (t : List Char) : Option Nat :=
  (monthTable.find? (fun p => p.1.data == lowerTok t)).map (·.2)

def jumpTok : List (List Char) :=
  [[' '], ['.'], [','], [';'], ['-'], ['/'], [Char.ofNat 39]] ++
  (["at", "on", "and", "ad", "m", "t", "of", "st", "nd", "rd", "th"].map String.data)

def isJumpTok (t : List Char) : Bool := jumpTok.contains (lowerTok t)

def hmsVal (t : List Char) : Option Nat :=
  let w := lowerTok t
  if w == "h".data || w == "hour".data || w == "hours".data then some 0
  else if w == "m".data || w == "minute".data || w == "minutes".data then some 1
  else if w == "s".data || w == "second".data || w == "seconds".data then some 2
  else none

def ampmVal (t : List Char) : Option Nat :=
  let w := lowerTok t
  if w == "am".data || w == "a".data then some 0
  else if w == "pm".data || w == "p".data then some 1
  else none

def weekdayTable : List String :=
  ["mon", "monday", "tue", "tuesday", "wed", "wednesday", "thu", "thursday",
   "fri", "friday", "sat", "saturday", "sun", "sunday"]

def isWeekdayTok (t : List Char) : Bool :=
  weekdayTable.any (fun s => s.data == lowerTok t)

def isPertainTok (t : List Char) : Bool := lowerTok t == "of".data

/-- Tokens accepted by Python `float` that are not digit runs (`inf`, `nan`);
they enter the numeric branch and then fail `_to_decimal`'s finiteness
check. -/
def isInfNanTok (t : List Char) : Bool :=
  let w := lowerTok t
  w == "inf".data || w == "infinity".data || w == "nan".data

def isNumTok (t : List Char) : Bool := !t.isEmpty && t.all isDigitCh

/-- `parserinfo.convertyear` (`cy` is `parserinfo._year`). -/
def convertyear (cy : Nat) (year : Nat) (centurySpecified : Bool) : Nat :=
  if year < 100 && !centurySpecified then
    let y1 := year + cy / 100 * 100
    if cy + 50 ≤ y1 then y1 - 100
    else if y1 < cy - 50 then y1 + 100
    else y1
  else year

/-! ## The `_ymd` year/month/day list -/

inductive YLab | Y | M | D
deriving Repr, DecidableEq

structure YMD where
  vals : List Nat := []
  century : Bool := false
  mstridx : Option Nat := none
  dstridx : Option Nat := none
  ystridx : Option Nat := none
deriving Repr, DecidableEq

/-- Attach a label to the last appended member (`none` on a duplicate label,
modelling the `ValueError`). -/
def YMD.setLab (y : YMD) (lab : Option YLab) : Option YMD :=
  match lab with
  | none => some y
  | some .M =>
    if y.mstridx.isSome then none else some { y with mstridx := some (y.vals.length - 1) }
  | some .D =>
    if y.dstridx.isSome then none else some { y with dstridx := some (y.vals.length - 1) }
  | some .Y =>
    if y.ystridx.isSome then none else some { y with ystridx := some (y.vals.length - 1) }

/-- `_ymd.append` for an integer value: a value above 100 forces the `Y`
label and marks the century as specified. -/
def YMD.appendVal (y : YMD) (n : Nat) (lab : Option YLab) : Option YMD :=
  if 100 < n then
    if lab = none || lab = some YLab.Y then
      YMD.setLab { y with century := true, vals := y.vals ++ [n] } (some .Y)
    else none
  else YMD.setLab { y with vals := y.vals ++ [n] } lab

/-- `_ymd.append` for a string value: a digit string longer than two
characters forces the `Y` label; a non-digit string fails (`int` raises). -/
def YMD.appendStr (y : YMD) (s : List Char) (lab : Option YLab) : Option YMD :=
  if isNumTok s then
    if 2 < s.length then
      if lab = none || lab = some YLab.Y then
        YMD.setLab { y with century := true, vals := y.vals ++ [natOfDigits s] } (some .Y)
      else none
    else YMD.setLab { y with vals := y.vals ++ [natOfDigits s] } lab
  else none

def YMD.couldBeDay (y : YMD) (v : Nat) : Bool :=
  if y.dstridx.isSome then false
  else if y.mstridx.isNone then 1 ≤ v && v ≤ 31
  else
    let month := y.vals.getD (y.mstridx.getD 0) 0
    if y.ystridx.isNone then 1 ≤ v && v ≤ (daysInMonth 2000 month).getD 0
    else 1 ≤ v && v ≤ (daysInMonth (y.vals.getD (y.ystridx.getD 0) 0) month).getD 0

/-- Number of labelled members (`len(strids)`). -/
def YMD.lenStrids (y : YMD) : Nat :=
  (if y.ystridx.isSome then 1 else 0) + (if y.mstridx.isSome then 1 else 0) +
  (if y.dstridx.isSome then 1 else 0)

/-! ## The parse-result record (`parser._result`); fields that cannot be set
inside the embedded domain (weekday, tzname, tzoffset) are omitted. -/

structure PRes where
  year : Option Nat := none
  month : Option Nat := none
  day : Option Nat := none
  hour : Option Nat := none
  minute : Option Nat := none
  second : Option Nat := none
  usec : Option Nat := none
  ampm : Option Nat := none
deriving Repr, DecidableEq

def resCount (r : PRes) : Nat :=
  [r.year, r.month, r.day, r.hour, r.minute, r.second, r.usec, r.ampm].countP Option.isSome

structure PSt where
  ymd : YMD := {}
  res : PRes := {}
deriving Repr, DecidableEq

def adjustAmpm (hour ampm : Nat) : Nat :=
  if hour < 12 && ampm = 1 then hour + 12
  else if hour = 12 && ampm = 0 then 0
  else hour

/-- `_assign_hms` (integer values only in the embedded domain; `hms = 3`,
which arises from a backward unit-label lookup on a seconds label, assigns
nothing — the token is silently swallowed). -/
def assignHms (res : PRes) (t : List Char) (hms : Nat) : PRes :=
  let v := natOfDigits t
  if hms = 0 then { res with hour := some v }
  else if hms = 1 then { res with minute := some v, second := none }
  else if hms = 2 then { res with second := some v, usec := some 0 }
  else res

def tokAt (l : List (List Char)) (i : Nat) : List Char := l.getD i []

/-- `_find_hms_idx`. -/
def findHmsIdx (l : List (List Char)) (i : Nat) (allowJump : Bool) : Option Nat :=
  let len := l.length
  if i + 1 < len && (hmsVal (tokAt l (i + 1))).isSome then some (i + 1)
  else if allowJump && i + 2 < len && tokAt l (i + 1) == [' '] &&
          (hmsVal (tokAt l (i + 2))).isSome then some (i + 2)
  else if 0 < i && (hmsVal (tokAt l (i - 1))).isSome then some (i - 1)
  else if 1 < i && i == len - 1 && tokAt l (i - 1) == [' '] &&
          (hmsVal (tokAt l (i - 2))).isSome then some (i - 2)
  else none

/-- `_parse_numeric_token`; returns the new index (the caller advances one
further) and the new state, or `none` where the original raises. -/
def numTok (l : List (List Char)) (i : Nat) (st : PSt) : Option (Nat × PSt) :=
  let t := tokAt l i
  let v := natOfDigits t
  let lenLi := t.length
  let lenL := l.length
  if st.ymd.vals.length = 3 && (lenLi = 2 || lenLi = 4) && st.res.hour.isNone &&
     (lenL ≤ i + 1 || (!(tokAt l (i + 1) == [':']) && (hmsVal (tokAt l (i + 1))).isNone)) then
    -- 19990101T23[59]
    let res := { st.res with hour := some (natOfDigits (t.take 2)) }
    let res := if lenLi = 4 then { res with minute := some (natOfDigits (t.drop 2)) } else res
    some (i, { st with res := res })
  else if lenLi = 6 then
    -- YYMMDD or HHMMSS
    if st.ymd.vals.length = 0 then
      match st.ymd.appendStr (t.take 2) none with
      | none => none
      | some y1 =>
        match y1.appendStr ((t.drop 2).take 2) none with
        | none => none
        | some y2 =>
          match y2.appendStr (t.drop 4) none with
          | none => none
          | some y3 => some (i, { st with ymd := y3 })
    else
      let res := { st.res with
        hour := some (natOfDigits (t.take 2))
        minute := some (natOfDigits ((t.drop 2).take 2))
        second := some (natOfDigits (t.drop 4))
        usec := some 0 }
      some (i, { st with res := res })
  else if lenLi = 8 || lenLi = 12 || lenLi = 14 then
    -- YYYYMMDD[hhmm[ss]]
    match st.ymd.appendStr (t.take 4) (some .Y) with
    | none => none
    | some y1 =>
      match y1.appendStr ((t.drop 4).take 2) none with
      | none => none
      | some y2 =>
        match y2.appendStr ((t.drop 6).take 2) none with
        | none => none
        | some y3 =>
          let res := st.res
          let res := if 8 < lenLi then
              { res with
                hour := some (natOfDigits ((t.drop 8).take 2))
                minute := some (natOfDigits ((t.drop 10).take 2)) } else res
          let res := if 12 < lenLi then
              { res with second := some (natOfDigits (t.drop 12)) } else res
          some (i, { st with ymd := y3, res := res })
  else match findHmsIdx l i true with
  | some hmsIdx =>
    -- HH[ ]h, MM[ ]m, SS[ ]s (`_parse_hms` + `_assign_hms`)
    if i < hmsIdx then
      match hmsVal (tokAt l hmsIdx) with
      | some hms => some (hmsIdx, { st with res := assignHms st.res t hms })
      | none => none
    else
      match hmsVal (tokAt l hmsIdx) with
      | some hms => some (i, { st with res := assignHms st.res t (hms + 1) })
      | none => none
  | none =>
    if i + 2 < lenL && tokAt l (i + 1) == [':'] then
      -- HH:MM[:SS]
      let t2 := tokAt l (i + 2)
      if !isNumTok t2 then none
      else
        let res1 := { st.res with
          hour := some v
          minute := some (natOfDigits t2)
          second := none }
        if i + 4 < lenL && tokAt l (i + 3) == [':'] then
          let t4 := tokAt l (i + 4)
          if !isNumTok t4 then none
          else some (i + 4, { st with res :=
            { res1 with second := some (natOfDigits t4), usec := some 0 } })
        else some (i + 2, { st with res := res1 })
    else if i + 1 < lenL && (tokAt l (i + 1) == ['-'] || tokAt l (i + 1) == ['/']) then
      -- separated numeric date
      let sep := tokAt l (i + 1)
      match st.ymd.appendStr t none with
      | none => none
      | some y1 =>
        if i + 2 < lenL && !isJumpTok (tokAt l (i + 2)) then
          let t2 := tokAt l (i + 2)
          let y2? : Option YMD :=
            if isNumTok t2 then y1.appendStr t2 none
            else match monthWordVal t2 with
              | some m => y1.appendVal m (some .M)
              | none => none
          match y2? with
          | none => none
          | some y2 =>
            if i + 3 < lenL && tokAt l (i + 3) == sep then
              match l.get? (i + 4) with
              | none => none  -- IndexError
              | some t4 =>
                let y3? := match monthWordVal t4 with
                  | some m => y2.appendVal m (some .M)
                  | none => y2.appendStr t4 none
                match y3? with
                | none => none
                | some y3 => some (i + 4, { st with ymd := y3 })
            else some (i + 2, { st with ymd := y2 })
        else some (i + 1, { st with ymd := y1 })
    else if lenL ≤ i + 1 || isJumpTok (tokAt l (i + 1)) then
      if i + 2 < lenL && (ampmVal (tokAt l (i + 2))).isSome then
        -- "12 am"
        some (i + 2, { st with res :=
          { st.res with hour := some (adjustAmpm v ((ampmVal (tokAt l (i + 2))).getD 0)) } })
      else
        -- year, month or day
        match st.ymd.appendVal v none with
        | none => none
        | some y1 => some (i + 1, { st with ymd := y1 })
    else if (ampmVal (tokAt l (i + 1))).isSome && v < 24 then
      -- "12am"
      some (i + 1, { st with res :=
        { st.res with hour := some (adjustAmpm v ((ampmVal (tokAt l (i + 1))).getD 0)) } })
    else if st.ymd.couldBeDay v then
      match st.ymd.appendVal v none with
      | none => none
      | some y1 => some (i, { st with ymd := y1 })
    else none

/-- The token loop of `parser._parse` (`cy` is `parserinfo._year`).
Weekday tokens, timezone names (an all-uppercase token of length at most 5,
or `"z"`, once an hour is set) and numeric timezone offsets are outside the
embedded domain and fail. -/
def ploop (cy : Nat) (l : List (List Char)) : Nat → Nat → PSt → Option PSt
  | 0, _, _ => none
  | fuel + 1, i, st =>
    if l.length ≤ i then some st
    else
      let t := tokAt l i
      if isNumTok t then
        match numTok l i st with
        | none => none
        | some (i2, st2) => ploop cy l fuel (i2 + 1) st2
      else if isInfNanTok t then none
      else if isWeekdayTok t then none
      else match monthWordVal t with
      | some m =>
        match st.ymd.appendVal m (some .M) with
        | none => none
        | some y1 =>
          if i + 1 < l.length && (tokAt l (i + 1) == ['-'] || tokAt l (i + 1) == ['/']) then
            -- Jan-01[-99]
            let sep := tokAt l (i + 1)
            match l.get? (i + 2) with
            | none => none  -- IndexError
            | some t2 =>
              match y1.appendStr t2 none with
              | none => none
              | some y2 =>
                if i + 3 < l.length && tokAt l (i + 3) == sep then
                  match l.get? (i + 4) with
                  | none => none  -- IndexError
                  | some t4 =>
                    match y2.appendStr t4 none with
                    | none => none
                    | some y3 => ploop cy l fuel (i + 5) { st with ymd := y3 }
                else ploop cy l fuel (i + 3) { st with ymd := y2 }
          else if i + 4 < l.length && tokAt l (i + 1) == [' '] && tokAt l (i + 3) == [' '] &&
                  isPertainTok (tokAt l (i + 2)) then
            -- Jan of 01
            let t4 := tokAt l (i + 4)
            if isNumTok t4 then
              let year := convertyear cy (natOfDigits t4) false
              match y1.appendStr (natDigits year) (some .Y) with
              | none => none
              | some y2 => ploop cy l fuel (i + 5) { st with ymd := y2 }
            else ploop cy l fuel (i + 5) { st with ymd := y1 }
          else ploop cy l fuel (i + 1) { st with ymd := y1 }
      | none =>
        match ampmVal t with
        | some a =>
          -- `_ampm_valid` with fuzzy = False
          match st.res.hour with
          | none => none
          | some h =>
            if h ≤ 12 then
              ploop cy l fuel (i + 1)
                { st with res := { st.res with hour := some (adjustAmpm h a), ampm := some a } }
            else none
        | none =>
          if st.res.hour.isSome && t.length ≤ 5 && (t.all isUpperCh || t == ['z']) then none
          else if st.res.hour.isSome && (t == ['+'] || t == ['-']) then none
          else if isJumpTok t then ploop cy l fuel (i + 1) st
          else none

/-! ## `resolve_ymd` (with the library defaults `yearfirst = dayfirst =
False`) and the assembly of the final `datetime` -/

/-- `_ymd._resolve_from_stridxs` (including backing out the one missing
label when three members carry two labels). -/
def resolveFromStridxs (y : YMD) : Option Nat × Option Nat × Option Nat :=
  if y.vals.length = 3 && y.lenStrids = 2 then
    let used := [y.ystridx, y.mstridx, y.dstridx].filterMap id
    let missingIdx := (([0, 1, 2] : List Nat).filter (fun k => !used.contains k)).headD 0
    (some (y.vals.getD (y.ystridx.getD missingIdx) 0),
     some (y.vals.getD (y.mstridx.getD missingIdx) 0),
     some (y.vals.getD (y.dstridx.getD missingIdx) 0))
  else
    (y.ystridx.map (fun k => y.vals.getD k 0),
     y.mstridx.map (fun k => y.vals.getD k 0),
     y.dstridx.map (fun k => y.vals.getD k 0))

/-- `_ymd.resolve_ymd` with `yearfirst = dayfirst = False`; the result is
`(year?, month?, day?)`, and `none` models the `ValueError` on more than
three members. -/
def resolveYmd (y : YMD) : Option (Option Nat × Option Nat × Option Nat) :=
  let lenYmd := y.vals.length
  if (lenYmd = y.lenStrids && 0 < y.lenStrids) || (lenYmd = 3 && y.lenStrids = 2) then
    some (resolveFromStridxs y)
  else if 3 < lenYmd then none
  else if lenYmd = 1 || (y.mstridx.isSome && lenYmd = 2) then
    let mo : Option Nat := y.mstridx.map (fun k => y.vals.getD k 0)
    let other := match y.mstridx with
      | some k => y.vals.getD (if k = 0 then y.vals.length - 1 else k - 1) 0
      | none => y.vals.getD 0 0
    if 1 < lenYmd || y.mstridx.isNone then
      if 31 < other then some (some other, mo, none)
      else some (none, mo, some other)
    else some (none, mo, none)
  else if lenYmd = 2 then
    let a := y.vals.getD 0 0
    let b := y.vals.getD 1 0
    if 31 < a then some (some a, some b, none)
    else if 31 < b then some (some b, some a, none)
    else some (none, some a, some b)
  else if lenYmd = 3 then
    let a := y.vals.getD 0 0
    let b := y.vals.getD 1 0
    let c := y.vals.getD 2 0
    match y.mstridx with
    | some 0 =>
      if 31 < b then some (some b, some a, some c)
      else some (some c, some a, some b)
    | some 1 =>
      if 31 < a then some (some a, some b, some c)
      else some (some c, some b, some a)
    | some 2 =>
      if 31 < b then some (some b, some c, some a)
      else some (some a, some c, some b)
    | _ =>
      if 31 < a || y.ystridx == some 0 then some (some a, some b, some c)
      else if 12 < a then some (some c, some b, some a)
      else some (some c, some a, some b)
  else some (none, none, none)

/-- The string-and-clock part of the parse: tokenizing, the token loop,
`resolve_ymd` and `validate`.  Depends only on the input string and on
`parserinfo._year` (`cy`), not on the default date. -/
def duParseRes (cy : Nat) (s : List Char) : Option PRes :=
  match tokenize s with
  | none => none
  | some l =>
    match ploop cy l (l.length + 1) 0 {} with
    | none => none
    | some st =>
      match resolveYmd st.ymd with
      | none => none
      | some (yy, mm, dd) =>
        -- `info.validate`: two-digit-year conversion
        let yy := yy.map (fun v => convertyear cy v st.ymd.century)
        some { st.res with year := yy, month := mm, day := dd }

/-- `_build_naive` plus `datetime.replace` validation: fill missing fields
from the default date (midnight `today`), clamping a defaulted day to the
end of the month. -/
def buildNaive (today : Date3) (res : PRes) : Option PyDateTime :=
  if resCount res = 0 then none  -- "String does not contain a date"
  else
    let cyear := res.year.getD today.year
    let cmonth := res.month.getD today.month
    let day? : Option Nat :=
      match res.day with
      | some d => some d
      | none =>
        match daysInMonth cyear cmonth with
        | none => none  -- IllegalMonthError
        | some dim => some (if dim < today.day then dim else today.day)
    match day? with
    | none => none
    | some d =>
      let dt : PyDateTime :=
        { year := cyear, month := cmonth, day := d, hour := res.hour.getD 0,
          minute := res.minute.getD 0, second := res.second.getD 0 }
      if validDateTime dt then some dt else none

/-- The embedded `dateutil.parser.parse(s, default = today at midnight)`,
with `cy` playing `parserinfo._year`.  `none` models `ParserError` (or any
other exception escaping `parse`). -/
def duParse (cy : Nat) (today : Date3) (s : List Char) : Option PyDateTime :=
  (duParseRes cy s).bind (buildNaive today)

/-- The application's date-resolution step (`app.py` line 223):
`date_parser.parse(f"{date_str} {datetime.now().year}")`.  The reference
year appended to the raw string is `today.year`, and `today` is also the
parse default. -/
def resolve_date (today : Date3) (dateStr : List Char) : Option PyDateTime :=
  duParse today.year today (dateStr ++ [' '] ++ natDigits today.year)

/-! ## JSON values and `json.loads`

Python values produced by `json.loads` are embedded as `Json`.  Numeric
literals are kept as their lexeme (no claim compares numeric magnitudes).
Object key/value pairs are kept in source order; `dict` lookup is the last
binding of a key.  The parser is a translation of the strict CPython
decoder on ASCII-compatible input; `\u` escapes denoting surrogates are
outside the embedded domain. -/

inductive Json where
  | null
  | bool (b : Bool)
  | num (lexeme : List Char)
  | str (s : List Char)
  | arr (elems : List Json)
  | obj (fields : List (List Char × Json))
deriving Repr

def quoteCh : Char := Char.ofNat 34
def backslashCh : Char := Char.ofNat 92
def lbraceCh : Char := Char.ofNat 123
def rbraceCh : Char := Char.ofNat 125

def isJWs (c : Char) : Bool := c = ' ' || c = '\t' || c = '\n' || c = '\r'

def skipJWs (s : List Char) : List Char := s.dropWhile isJWs

def hexVal (c : Char) : Option Nat :=
  if isDigitCh c then some (c.toNat - 48)
  else if 'a' ≤ c && c ≤ 'f' then some (c.toNat - 87)
  else if 'A' ≤ c && c ≤ 'F' then some (c.toNat - 55)
  else none

/-- JSON string body after the opening quote; returns the decoded
characters and the rest after the closing quote. -/
def jstring : Nat → List Char → Option (List Char × List Char)
  | 0, _ => none
  | _, [] => none
  | fuel + 1, c :: rest =>
    if c = quoteCh then some ([], rest)
    else if c = backslashCh then
      match rest with
      | [] => none
      | e :: rest2 =>
        let simple : Option Char :=
          if e = quoteCh then some quoteCh
          else if e = backslashCh then some backslashCh
          else if e = '/' then some '/'
          else if e = 'b' then some (Char.ofNat 8)
          else if e = 'f' then some (Char.ofNat 12)
          else if e = 'n' then some (Char.ofNat 10)
          else if e = 'r' then some (Char.ofNat 13)
          else if e = 't' then some (Char.ofNat 9)
          else none
        match simple with
        | some d =>
          match jstring fuel rest2 with
          | some (tl, rem) => some (d :: tl, rem)
          | none => none
        | none =>
          if e = 'u' then
            match rest2 with
            | h1 :: h2 :: h3 :: h4 :: rest3 =>
              match hexVal h1, hexVal h2, hexVal h3, hexVal h4 with
              | some a, some b, some c2, some d =>
                let n := ((a * 16 + b) * 16 + c2) * 16 + d
                if 0xd800 ≤ n && n ≤ 0xdfff then none  -- surrogates: outside the domain
                else
                  match jstring fuel rest3 with
                  | some (tl, rem) => some (Char.ofNat n :: tl, rem)
                  | none => none
              | _, _, _, _ => none
            | _ => none
          else none
    else if c.toNat < 32 then none  -- strict mode rejects raw control characters
    else
      match jstring fuel rest with
      | some (tl, rem) => some (c :: tl, rem)
      | none => none

/-- JSON number at the head of the input (CPython `NUMBER_RE`):
`-?(0|[1-9][0-9]*)(\.[0-9]+)?([eE][-+]?[0-9]+)?`; returns the lexeme. -/
def jnumber (s : List Char) : Option (List Char × List Char) :=
  let (neg, s1) := match s with
    | c :: tl => if c = '-' then (['-'], tl) else (([] : List Char), s)
    | [] => ([], s)
  match s1 with
  | [] => none
  | c :: tl =>
    if !isDigitCh c then none
    else
      let intPart :=
        if c = '0' then ([c], tl)
        else
          let r := takeRun isDigitCh tl
          (c :: r.1, r.2)
      let (ip, rest1) := intPart
      let (fp, rest2) := match rest1 with
        | d :: tl2 =>
          if d = '.' then
            let r := takeRun isDigitCh tl2
            if r.1.isEmpty then (([] : List Char), rest1) else (d :: r.1, r.2)
          else ([], rest1)
        | [] => ([], rest1)
      -- a dot not followed by digits is not part of the number
      let (ep, rest3) := match rest2 with
        | e :: tl3 =>
          if e = 'e' || e = 'E' then
            let (sign, tl4) := match tl3 with
              | sgn :: tl5 => if sgn = '+' || sgn = '-' then ([sgn], tl5) else (([] : List Char), tl3)
              | [] => ([], tl3)
            let r := takeRun isDigitCh tl4
            if r.1.isEmpty then (([] : List Char), rest2) else (e :: sign ++ r.1, r.2)
          else ([], rest2)
        | [] => ([], rest2)
      some (neg ++ ip ++ fp ++ ep, rest3)

def startsWith (pre s : List Char) : Bool := s.take pre.length == pre

mutual

/-- A JSON value at the head of the input (leading whitespace already
skipped); returns the value and the rest. -/
def jvalue : Nat → List Char → Option (Json × List Char)
  | 0, _ => none
  | fuel + 1, s =>
    match s with
    | [] => none
    | c :: rest =>
      if c = quoteCh then
        match jstring (rest.length + 1) rest with
        | some (str, rem) => some (.str str, rem)
        | none => none
      else if c = lbraceCh then
        let r1 := skipJWs rest
        match r1 with
        | d :: rem1 =>
          if d = rbraceCh then some (.obj [], rem1)
          else jobjItems fuel r1 []
        | [] => none
      else if c = '[' then
        let r1 := skipJWs rest
        match r1 with
        | d :: rem1 =>
          if d = ']' then some (.arr [], rem1)
          else jarrItems fuel r1 []
        | [] => none
      else if startsWith "true".data s then some (.bool true, s.drop 4)
      else if startsWith "false".data s then some (.bool false, s.drop 5)
      else if startsWith "null".data s then some (.null, s.drop 4)
      else if startsWith "NaN".data s then some (.num ("NaN".data), s.drop 3)
      else if startsWith "Infinity".data s then some (.num ("Infinity".data), s.drop 8)
      else if startsWith "-Infinity".data s then some (.num ("-Infinity".data), s.drop 9)
      else
        match jnumber s with
        | some (lx, rem) => some (.num lx, rem)
        | none => none

/-- Array elements (positioned at the start of a value). -/
def jarrItems : Nat → List Char → List Json → Option (Json × List Char)
  | 0, _, _ => none
  | fuel + 1, s, acc =>
    match jvalue fuel s with
    | none => none
    | some (v, rest) =>
      let r1 := skipJWs rest
      match r1 with
      | d :: rem1 =>
        if d = ']' then some (.arr (acc ++ [v]), rem1)
        else if d = ',' then jarrItems fuel (skipJWs rem1) (acc ++ [v])
        else none
      | [] => none

/-- Object members (positioned at the start of a key string). -/
def jobjItems : Nat → List Char → List (List Char × Json) → Option (Json × List Char)
  | 0, _, _ => none
  | fuel + 1, s, acc =>
    match s with
    | c :: rest =>
      if c = quoteCh then
        match jstring (rest.length + 1) rest with
        | none => none
        | some (key, rem1) =>
          match skipJWs rem1 with
          | colon :: rem2 =>
            if colon = ':' then
              match jvalue fuel (skipJWs rem2) with
              | none => none
              | some (v, rem3) =>
                match skipJWs rem3 with
                | d :: rem4 =>
                  if d = rbraceCh then some (.obj (acc ++ [(key, v)]), rem4)
                  else if d = ',' then
                    match skipJWs rem4 with
                    | q :: _ =>
                      if q = quoteCh then jobjItems fuel (skipJWs rem4) (acc ++ [(key, v)])
                      else none
                    | [] => none
                  else none
                | [] => none
            else none
          | [] => none
      else none
    | [] => none

end

/-- `json.loads`: a single JSON document with optional surrounding
whitespace. -/
def json_loads (s : List Char) : Option Json :=
  match jvalue (2 * s.length + 4) (skipJWs s) with
  | some (j, rest) => if (skipJWs rest).isEmpty then some j else none
  | none => none

/-! ## Response repair and the structured extractor
(`extract_events_with_ollama`, `app.py` lines 131-175) -/

/-- Python `str.strip()` (ASCII whitespace). -/
def pyStrip (s : List Char) : List Char :=
  ((s.dropWhile isSpaceCh).reverse.dropWhile isSpaceCh).reverse

/-- Index of the first occurrence of a character. -/
def firstIdx (c : Char) : List Char → Option Nat
  | [] => none
  | x :: xs => if x = c then some 0 else (firstIdx c xs).map (· + 1)

/-- `re.search(r"\[.*\]", s, re.DOTALL)`: the leftmost-greedy match runs
from the first `'['` that precedes the last `']'` up to that last `']'`. -/
def bracketSpan (s : List Char) : Option (List Char) :=
  match firstIdx '[' s, (firstIdx ']' s.reverse).map (s.length - 1 - ·) with
  | some i, some j => if i < j then some ((s.take (j + 1)).drop i) else none
  | _, _ => none

/-- Python exceptions that can escape the embedded fragments. -/
inductive PyErr | attributeError | typeError
deriving Repr, DecidableEq

/-- `extract_events_with_ollama`, as a function of the oracle behaviour:
`.error` is any exception raised by the `ollama.chat` call (or the
response-field access), `.ok content` the response text.  Returns the
parsed JSON value verbatim, or the empty list on any failure. -/
def extract_events_with_ollama (oracle : Except Unit (List Char)) : Json :=
  match oracle with
  | .error _ => Json.arr []           -- except Exception: return []
  | .ok content =>
    let responseText := pyStrip content
    let chosen := (bracketSpan responseText).getD responseText
    match json_loads chosen with
    | some j => j
    | none => Json.arr []             -- except json.JSONDecodeError: return []

/-! ## The sync loop (`add_events_to_calendar`, `app.py` lines 212-251) -/

/-- `item.get(key, default)`: `AttributeError` on a non-dict, last binding
of the key otherwise. -/
def jsonGet (item : Json) (key : List Char) (dflt : Json) : Except PyErr Json :=
  match item with
  | .obj kvs => .ok ((((kvs.reverse).find? (fun p => p.1 == key)).map (·.2)).getD dflt)
  | _ => .error .attributeError

/-- `for item in events`: lists iterate their elements, strings their
characters, dicts their keys; other values raise `TypeError`. -/
def pyIter (events : Json) : Except PyErr (List Json) :=
  match events with
  | .arr xs => .ok xs
  | .str s => .ok (s.map (fun c => Json.str [c]))
  | .obj kvs => .ok (kvs.map (fun p => Json.str p.1))
  | _ => .error .typeError

/-- Python `f"{v}"` for values reachable in the `date` field.  Faithful for
strings (the only shape any theorem relies on), integer numerals, booleans
and `None`. -/
def pyFStr (v : Json) : List Char :=
  match v with
  | .str s => s
  | .num lx => lx
  | .bool true => "True".data
  | .bool false => "False".data
  | .null => "None".data
  | .arr _ => "[...]".data
  | .obj _ => "\x7b...\x7d".data

def pad2 (n : Nat) : List Char := if n < 10 then '0' :: natDigits n else natDigits n

/-- `event_date.strftime("%Y-%m-%d")` (glibc: the year is not padded). -/
def fmtYmd (dt : PyDateTime) : List Char :=
  natDigits dt.year ++ ['-'] ++ pad2 dt.month ++ ['-'] ++ pad2 dt.day

/-- The calendar-service insert request body (`event_body`,
`app.py` lines 229-240). -/
structure EventBody where
  summary : Json
  startDate : List Char
  startTimeZone : List Char
  endDate : List Char
  endTimeZone : List Char
  description : List Char
deriving Repr

def mkEventBody (name : Json) (dt : PyDateTime) : EventBody :=
  { summary := name
    startDate := fmtYmd dt
    startTimeZone := "America/New_York".data
    endDate := fmtYmd dt
    endTimeZone := "America/New_York".data
    description := "Imported from syllabus".data }

/-- Observable outcome of `add_events_to_calendar`: the returned value (or
the uncaught exception), the `Error parsing date: …` log, and the bodies
passed to the insert call in order. -/
structure SyncRun where
  retval : Except PyErr Nat
  failLog : List (List Char)
  inserted : List EventBody
deriving Repr

/-- The `for item in events` loop.  `insertOk k` tells whether the `k`-th
insert call (0-based) succeeds or raises `HttpError`; an `HttpError` is
caught by the surrounding handler, which returns 0. -/
def syncLoop (today : Date3) (insertOk : Nat → Bool) :
    List Json → Nat → List (List Char) → List EventBody → SyncRun
  | [], added, flog, ins => ⟨.ok added, flog, ins⟩
  | item :: rest, added, flog, ins =>
    match jsonGet item ("event".data) (Json.str ("Untitled Event".data)) with
    | .error e => ⟨.error e, flog, ins⟩
    | .ok nameV =>
      match jsonGet item ("date".data) (Json.str []) with
      | .error e => ⟨.error e, flog, ins⟩
      | .ok dateV =>
        let dateStr := pyFStr dateV
        match resolve_date today dateStr with
        | none => syncLoop today insertOk rest added (flog ++ [dateStr]) ins
        | some dt =>
          let body := mkEventBody nameV dt
          if insertOk ins.length then
            syncLoop today insertOk rest (added + 1) flog (ins ++ [body])
          else ⟨.ok 0, flog, ins ++ [body]⟩

/-- `add_events_to_calendar(events)`.  The calendar-service handle is
assumed available (its construction is outside the specified core); the
behaviour of each insert call is `insertOk`. -/
def add_events_to_calendar (events : Json) (today : Date3) (insertOk : Nat → Bool) : SyncRun :=
  match pyIter events with
  | .error e => ⟨.error e, [], []⟩
  | .ok items => syncLoop today insertOk items 0 [] []

/-- A candidate event as in the specification's data model: `event`/`date`
string fields, either possibly missing. -/
structure Candidate where
  event : Option (List Char)
  date : Option (List Char)

def Candidate.toJson (c : Candidate) : Json :=
  Json.obj ((match c.event with
             | some n => [(("event".data : List Char), Json.str n)]
             | none => []) ++
            (match c.date with
             | some d => [(("date".data : List Char), Json.str d)]
             | none => []))

/-! ## RegexDateExtractor (spec §4.2)

The repository source under `src/` contains no regex date extractor (only
the JSON-array search in the structured extractor); the component is
described by the specification alone, so it is modelled from the spec. -/

/-- Modelled from the spec: the month words of §4.2 — "a 3+-letter month
abbreviation or full name (Jan…Dec, including Sept)" — taken as all
prefixes of length at least 3 of the twelve English month names. -/
def monthPrefixes : List (List Char) :=
  (["january", "february", "march", "april", "may", "june", "july", "august",
    "september", "october", "november", "december"].map String.data).flatMap
    (fun w => (List.range (w.length - 2)).map (fun k => w.take (3 + k)))

/-- Longest month word readable at the head of `s` (case-insensitively),
with its length. -/
def monthWordAt (s : List Char) : Option Nat :=
  (List.range 10).reverse.findSome? (fun len =>
    if 3 ≤ len && len ≤ s.length && monthPrefixes.contains (lowerTok (s.take len))
    then some len else none)

/-- Modelled from the spec: pattern 1 of §4.2 — month word, whitespace, a
1–2 digit day — matched at the head of `s`; returns the match length.
Longer month words are preferred; the day match is greedy. -/
def matchMonthDay (s : List Char) : Option Nat :=
  match monthWordAt s with
  | none => none
  | some len =>
    let rest := s.drop len
    let ws := (rest.takeWhile isSpaceCh).length
    if ws = 0 then none
    else
      let ds := ((rest.drop ws).takeWhile isDigitCh).length
      if ds = 0 then none
      else some (len + ws + min ds 2)

/-- Modelled from the spec: patterns 2 and 3 of §4.2 —
`D{1,2} sep D{1,2} sep D{2,4}` with `sep` a slash or a dash — matched at
the head of `s` with the usual greedy-with-backtracking semantics of
`\d{1,2}`; returns the match length. -/
def matchSepDate (sep : Char) (s : List Char) : Option Nat :=
  let run1 := (s.takeWhile isDigitCh).length
  let tryA (a : Nat) : Option Nat :=
    if 1 ≤ a && a ≤ run1 && s.getD a ' ' == sep then
      let s2 := s.drop (a + 1)
      let run2 := (s2.takeWhile isDigitCh).length
      let tryB (b : Nat) : Option Nat :=
        if 1 ≤ b && b ≤ run2 && s2.getD b ' ' == sep then
          let run3 := ((s2.drop (b + 1)).takeWhile isDigitCh).length
          if 2 ≤ run3 then some (a + 1 + b + 1 + min run3 4) else none
        else none
      (tryB 2).orElse (fun _ => tryB 1)
    else none
  (tryA 2).orElse (fun _ => tryA 1)

/-- `re.findall` driver: scan left to right, emitting `(position, match)`
and resuming after each match. -/
def findallGo (m : List Char → Option Nat) (s : List Char) :
    Nat → Nat → List (Nat × List Char)
  | 0, _ => []
  | fuel + 1, p =>
    if s.length ≤ p then []
    else
      match m (s.drop p) with
      | some len =>
        (p, (s.drop p).take len) :: findallGo m s fuel (p + max len 1)
      | none => findallGo m s fuel (p + 1)

def findall (m : List Char → Option Nat) (s : List Char) : List (Nat × List Char) :=
  findallGo m s (s.length + 1) 0

/-- Position order on matches (ties keep the pattern order of the
concatenation, as `List.insertionSort` is stable). -/
def posLE (a b : Nat × List Char) : Prop := a.1 ≤ b.1

instance : DecidableRel posLE := fun a b => Nat.decLe a.1 b.1

instance : IsTotal (Nat × List Char) posLE := ⟨fun a b => Nat.le_total a.1 b.1⟩

instance : IsTrans (Nat × List Char) posLE := ⟨fun _ _ _ => Nat.le_trans⟩

/-- Modelled from the spec: the position-tagged matches of the three
patterns of §4.2, merged in order of first appearance in the text. -/
def regexMatches (text : String) : List (Nat × List Char) :=
  (findall matchMonthDay text.data ++ findall (matchSepDate '/') text.data ++
   findall (matchSepDate '-') text.data).insertionSort posLE

/-- Modelled from the spec: `RegexDateExtractor.extractDates` (§4.2) —
the union of the matches of the three patterns, ordered by first
appearance in the text, duplicates preserved. -/
def extractDates (text : String) : List String :=
  (regexMatches text).map (fun p => String.mk p.2)

/-- The 4-digit numeric tokens of a raw string whose value exceeds 100 —
the tokens that read as an explicit year (`_ymd.append` labels exactly
these as `Y` wherever it appends them). -/
def explicitYearTokens (raw : List Char) : List Nat :=
  ((tokenize raw).getD []).filterMap (fun t =>
    if t.length = 4 && isNumTok t && 100 < natOfDigits t then some (natOfDigits t) else none)

/-- A sync batch of candidate events, as handed over by the extractor. -/
def syncCandidates (cs : List Candidate) (today : Date3) (insertOk : Nat → Bool) : SyncRun :=
  add_events_to_calendar (Json.arr (cs.map Candidate.toJson)) today insertOk

/-- The date string the sync loop hands to the resolver for a candidate
(`item.get('date', '')`). -/
def Candidate.dateStr (c : Candidate) : List Char := c.date.getD []

/-- A candidate's date fails resolution (`UnresolvableDate`). -/
def unresolvable (today : Date3) (c : Candidate) : Bool :=
  (resolve_date today c.dateStr).isNone

/-! ### Decimal-representation lemmas -/

theorem natDigitsGo_acc (fuel : Nat) :
    ∀ (n : Nat) (acc : List Char),
      natDigitsGo fuel n acc = natDigitsGo fuel n [] ++ acc := by
  induction fuel with
  | zero => intro n acc; simp [natDigitsGo]
  | succ f ih =>
    intro n acc
    by_cases h : n = 0
    · simp [natDigitsGo, h]
    · rw [natDigitsGo, if_neg h, natDigitsGo, if_neg h, ih (n / 10),
        ih (n / 10) [digitChar (n % 10)]]
      simp

theorem natDigitsGo_fuel (fuel : Nat) :
    ∀ (n f2 : Nat), n < fuel → n < f2 →
      natDigitsGo fuel n [] = natDigitsGo f2 n [] := by
  induction fuel with
  | zero => intro n f2 h; omega
  | succ f ih =>
    intro n f2 h1 h2
    cases f2 with
    | zero => omega
    | succ f2 =>
      by_cases h : n = 0
      · simp [natDigitsGo, h]
      · rw [natDigitsGo, if_neg h, natDigitsGo, if_neg h,
          natDigitsGo_acc f, natDigitsGo_acc f2]
        have hd : n / 10 < n := Nat.div_lt_self (Nat.pos_of_ne_zero h) (by omega)
        rw [ih (n / 10) f2 (by omega) (by omega)]

theorem natDigits_small {n : Nat} (h1 : 0 < n) (h2 : n < 10) :
    natDigits n = [digitChar n] := by
  unfold natDigits
  rw [if_neg (by omega), natDigitsGo, if_neg (by omega)]
  have h10 : n / 10 = 0 := Nat.div_eq_of_lt h2
  have hm : n % 10 = n := Nat.mod_eq_of_lt h2
  rw [h10, hm]
  cases n with
  | zero => omega
  | succ k => rw [natDigitsGo]; simp

theorem natDigits_step {n : Nat} (h : 10 ≤ n) :
    natDigits n = natDigits (n / 10) ++ [digitChar (n % 10)] := by
  unfold natDigits
  rw [if_neg (by omega), if_neg (by omega), natDigitsGo, if_neg (by omega),
    natDigitsGo_acc]
  congr 1
  have hd : n / 10 < n := Nat.div_lt_self (by omega) (by omega)
  exact natDigitsGo_fuel n (n / 10) (n / 10 + 1) (by omega) (by omega)

theorem digitChar_toNat {k : Nat} (h : k < 10) : (digitChar k).toNat = 48 + k := by
  interval_cases k <;> decide

theorem isDigitCh_digitChar {k : Nat} (h : k < 10) : isDigitCh (digitChar k) = true := by
  interval_cases k <;> decide

theorem natDigits_all_digit (n : Nat) : (natDigits n).all isDigitCh = true := by
  induction n using Nat.strong_induction_on with
  | _ n ih =>
    rcases Nat.eq_zero_or_pos n with h0 | hpos
    · subst h0; decide
    · rcases Nat.lt_or_ge n 10 with hs | hb
      · rw [natDigits_small hpos hs]
        simp [isDigitCh_digitChar hs]
      · rw [natDigits_step hb]
        have hd : n / 10 < n := Nat.div_lt_self (by omega) (by omega)
        have h1 := ih (n / 10) hd
        have h2 := isDigitCh_digitChar (k := n % 10) (by omega)
        simp [List.all_append, h1, h2]

theorem natDigits_ne_nil (n : Nat) : natDigits n ≠ [] := by
  rcases Nat.eq_zero_or_pos n with h0 | hpos
  · subst h0; decide
  · rcases Nat.lt_or_ge n 10 with hs | hb
    · rw [natDigits_small hpos hs]; simp
    · rw [natDigits_step hb]; simp

theorem isNumTok_natDigits (n : Nat) : isNumTok (natDigits n) = true := by
  have h1 := natDigits_all_digit n
  have h2 := natDigits_ne_nil n
  simp [isNumTok, h1]
  intro h
  exact absurd h h2

theorem natOfDigits_shift (l : List Char) :
    ∀ a : Nat, l.foldl (fun x c => x * 10 + (c.toNat - 48)) a =
      a * 10 ^ l.length + natOfDigits l := by
  induction l with
  | nil => intro a; simp [natOfDigits]
  | cons c l ih =>
    intro a
    have hr : natOfDigits (c :: l) = (c.toNat - 48) * 10 ^ l.length + natOfDigits l := by
      unfold natOfDigits
      rw [List.foldl_cons, ih (0 * 10 + (c.toNat - 48))]
      ring_nf
      rfl
    rw [List.foldl_cons, ih, hr, List.length_cons]
    ring

theorem natOfDigits_append (xs ys : List Char) :
    natOfDigits (xs ++ ys) = natOfDigits xs * 10 ^ ys.length + natOfDigits ys := by
  unfold natOfDigits
  rw [List.foldl_append, natOfDigits_shift]
  rfl

theorem natOfDigits_natDigits (n : Nat) : natOfDigits (natDigits n) = n := by
  induction n using Nat.strong_induction_on with
  | _ n ih =>
    rcases Nat.eq_zero_or_pos n with h0 | hpos
    · subst h0; decide
    · rcases Nat.lt_or_ge n 10 with hs | hb
      · rw [natDigits_small hpos hs]
        show 0 * 10 + ((digitChar n).toNat - 48) = n
        rw [digitChar_toNat hs]
        omega
      · rw [natDigits_step hb, natOfDigits_append]
        have hd : n / 10 < n := Nat.div_lt_self (by omega) (by omega)
        rw [ih (n / 10) hd]
        show n / 10 * 10 ^ 1 + (0 * 10 + ((digitChar (n % 10)).toNat - 48)) = n
        rw [digitChar_toNat (by omega)]
        omega

theorem natDigits_length_four {n : Nat} (h1 : 1000 ≤ n) (h2 : n ≤ 9999) :
    (natDigits n).length = 4 := by
  have l1 : ∀ m : Nat, 1 ≤ m → m ≤ 9 → (natDigits m).length = 1 := by
    intro m a b; rw [natDigits_small (by omega) (by omega)]; rfl
  have l2 : ∀ m : Nat, 10 ≤ m → m ≤ 99 → (natDigits m).length = 2 := by
    intro m a b
    rw [natDigits_step (by omega), List.length_append,
      l1 (m / 10) (by omega) (by omega)]
    rfl
  have l3 : ∀ m : Nat, 100 ≤ m → m ≤ 999 → (natDigits m).length = 3 := by
    intro m a b
    rw [natDigits_step (by omega), List.length_append,
      l2 (m / 10) (by omega) (by omega)]
    rfl
  rw [natDigits_step (by omega), List.length_append,
    l3 (n / 10) (by omega) (by omega)]
  rfl

/-! ### Tokenizer lemmas -/

theorem takeRun_all {p : Char → Bool} :
    ∀ {l : List Char}, l.all p = true → takeRun p l = (l, []) := by
  intro l
  induction l with
  | nil => intro _; rfl
  | cons c cs ih =>
    intro h
    simp only [List.all_cons, Bool.and_eq_true] at h
    rw [takeRun, if_pos h.1, ih h.2]

theorem digit_char_facts {c : Char} (h : isDigitCh c = true) :
    (c = '.' || c = ',' || 128 ≤ c.toNat) = false ∧ isAlphaCh c = false := by
  simp only [isDigitCh, Bool.and_eq_true, decide_eq_true_eq] at h
  constructor
  · have h1 : ¬ c = '.' := fun he => by
      have := congrArg Char.toNat he
      simp at this
      omega
    have h2 : ¬ c = ',' := fun he => by
      have := congrArg Char.toNat he
      simp at this
      omega
    simp [h1, h2]
    omega
  · simp only [isAlphaCh]
    simp
    omega

theorem tokenizeGo_digits {ds : List Char} (hne : ds ≠ [])
    (hall : ds.all isDigitCh = true) :
    ∀ fuel, ds.length < fuel → tokenizeGo fuel ds = some [ds] := by
  cases ds with
  | nil => exact absurd rfl hne
  | cons c cs =>
    intro fuel hf
    cases fuel with
    | zero => omega
    | succ f =>
      simp only [List.all_cons, Bool.and_eq_true] at hall
      obtain ⟨hnotdot, hnotalpha⟩ := digit_char_facts hall.1
      have hnil : tokenizeGo f [] = some [] := by
        cases f with
        | zero => simp at hf
        | succ f2 => rfl
      have hstep : tokenizeGo (f + 1) (c :: cs) =
          (tokenizeGo f []).map ((c :: cs) :: ·) := by
        simp only [tokenizeGo]
        rw [if_neg (by rw [hnotdot]; simp), if_neg (by simp [hnotalpha]),
          if_pos hall.1, takeRun_all hall.2]
      rw [hstep, hnil]
      rfl

theorem tokenize_space_digits {ds : List Char} (hne : ds ≠ [])
    (hall : ds.all isDigitCh = true) :
    tokenize (' ' :: ds) = some [[' '], ds] := by
  unfold tokenize
  have hstep : tokenizeGo ((' ' :: ds).length + 1) (' ' :: ds) =
      (tokenizeGo ((' ' :: ds).length) ds).map ([' '] :: ·) := by
    simp only [List.length_cons, tokenizeGo]
    rw [if_neg (by decide), if_neg (by decide), if_neg (by decide), if_pos (by decide)]
  rw [hstep, show (' ' :: ds).length = ds.length + 1 from rfl,
    tokenizeGo_digits hne hall (ds.length + 1) (by omega)]
  rfl

/-! ### Tokenizer: fuel irrelevance and splitting at a space -/

theorem takeRun_snd_length (p : Char → Bool) :
    ∀ l : List Char, (takeRun p l).2.length ≤ l.length := by
  intro l
  induction l with
  | nil => simp [takeRun]
  | cons c cs ih =>
    rw [takeRun]
    by_cases h : p c = true
    · rw [if_pos h]
      exact Nat.le_succ_of_le ih
    · rw [if_neg h]

theorem takeRun_append_notp {p : Char → Bool} {b : Char} (hb : p b = false)
    (bs : List Char) :
    ∀ as : List Char,
      takeRun p (as ++ b :: bs) = ((takeRun p as).1, (takeRun p as).2 ++ b :: bs) := by
  intro as
  induction as with
  | nil => simp [takeRun, hb]
  | cons a as ih =>
    rw [List.cons_append, takeRun, takeRun]
    by_cases h : p a = true
    · rw [if_pos h, if_pos h, ih]
    · rw [if_neg h, if_neg h]
      rfl

theorem tokenizeGo_succ : ∀ (fuel : Nat) (s : List Char), s.length < fuel →
    tokenizeGo fuel s = tokenizeGo (fuel + 1) s := by
  intro fuel
  induction fuel with
  | zero => intro s h; omega
  | succ f ih =>
    intro s h
    cases s with
    | nil => rfl
    | cons c cs =>
      simp only [List.length_cons] at h
      have hcs : cs.length < f := by omega
      simp only [tokenizeGo]
      by_cases h1 : (c = '.' || c = ',' || decide (128 ≤ c.toNat)) = true
      · rw [if_pos h1, if_pos h1]
      · rw [if_neg h1, if_neg h1]
        by_cases h2 : isAlphaCh c = true
        · rw [if_pos h2, if_pos h2,
            ih (takeRun isAlphaCh cs).2 (by have := takeRun_snd_length isAlphaCh cs; omega)]
        · rw [if_neg h2, if_neg h2]
          by_cases h3 : isDigitCh c = true
          · rw [if_pos h3, if_pos h3,
              ih (takeRun isDigitCh cs).2 (by have := takeRun_snd_length isDigitCh cs; omega)]
          · rw [if_neg h3, if_neg h3]
            by_cases h4 : isSpaceCh c = true
            · rw [if_pos h4, if_pos h4, ih cs hcs]
            · rw [if_neg h4, if_neg h4, ih cs hcs]

theorem tokenizeGo_fuel_irrel {s : List Char} {f1 f2 : Nat}
    (h1 : s.length < f1) (h2 : s.length < f2) :
    tokenizeGo f1 s = tokenizeGo f2 s := by
  have key : ∀ k f, s.length < f → tokenizeGo f s = tokenizeGo (f + k) s := by
    intro k
    induction k with
    | zero => intro f _; rfl
    | succ k ih =>
      intro f hf
      rw [ih f hf, show f + (k + 1) = f + k + 1 from rfl,
        ← tokenizeGo_succ (f + k) s (by omega)]
  rcases Nat.le_total f1 f2 with hle | hle
  · rw [show f2 = f1 + (f2 - f1) by omega]
    exact key (f2 - f1) f1 h1
  · rw [show f1 = f2 + (f1 - f2) by omega]
    exact (key (f1 - f2) f2 h2).symm

theorem tokenizeGo_eq_tokenize {s : List Char} {f : Nat} (h : s.length < f) :
    tokenizeGo f s = tokenize s :=
  tokenizeGo_fuel_irrel h (Nat.lt_succ_self _)

theorem tokenize_append_space {ys : List Char} {tys : List (List Char)}
    (hys : tokenize (' ' :: ys) = some tys) :
    ∀ (fuel : Nat) (xs : List Char) (txs : List (List Char)),
      tokenizeGo fuel xs = some txs →
      tokenize (xs ++ ' ' :: ys) = some (txs ++ tys) := by
  intro fuel
  induction fuel with
  | zero => intro xs txs h; simp [tokenizeGo] at h
  | succ f ih =>
    intro xs txs h
    cases xs with
    | nil =>
      rw [show tokenizeGo (f + 1) ([] : List Char) = some [] from rfl] at h
      obtain rfl : ([] : List (List Char)) = txs := Option.some.inj h
      simpa using hys
    | cons c cs =>
      rw [List.cons_append]
      show tokenizeGo ((c :: (cs ++ ' ' :: ys)).length + 1) (c :: (cs ++ ' ' :: ys)) =
        some (txs ++ tys)
      simp only [List.length_cons, tokenizeGo] at h ⊢
      by_cases h1 : (c = '.' || c = ',' || decide (128 ≤ c.toNat)) = true
      · rw [if_pos h1] at h
        exact absurd h (by simp)
      · rw [if_neg h1] at h
        rw [if_neg h1]
        by_cases h2 : isAlphaCh c = true
        · rw [if_pos h2] at h
          rw [if_pos h2, takeRun_append_notp (show isAlphaCh ' ' = false by decide) ys cs]
          dsimp only
          obtain ⟨rts, hrts, htxs⟩ := Option.map_eq_some'.mp h
          rw [tokenizeGo_eq_tokenize
            (show ((takeRun isAlphaCh cs).2 ++ ' ' :: ys).length <
              (cs ++ ' ' :: ys).length + 1 by
                have := takeRun_snd_length isAlphaCh cs
                simp only [List.length_append, List.length_cons]
                omega),
            ih (takeRun isAlphaCh cs).2 rts hrts, ← htxs]
          rfl
        · rw [if_neg h2] at h
          rw [if_neg h2]
          by_cases h3 : isDigitCh c = true
          · rw [if_pos h3] at h
            rw [if_pos h3, takeRun_append_notp (show isDigitCh ' ' = false by decide) ys cs]
            dsimp only
            obtain ⟨rts, hrts, htxs⟩ := Option.map_eq_some'.mp h
            rw [tokenizeGo_eq_tokenize
              (show ((takeRun isDigitCh cs).2 ++ ' ' :: ys).length <
                (cs ++ ' ' :: ys).length + 1 by
                  have := takeRun_snd_length isDigitCh cs
                  simp only [List.length_append, List.length_cons]
                  omega),
              ih (takeRun isDigitCh cs).2 rts hrts, ← htxs]
            rfl
          · rw [if_neg h3] at h
            rw [if_neg h3]
            by_cases h4 : isSpaceCh c = true
            · rw [if_pos h4] at h
              rw [if_pos h4]
              obtain ⟨rts, hrts, htxs⟩ := Option.map_eq_some'.mp h
              rw [tokenizeGo_eq_tokenize
                (show (cs ++ ' ' :: ys).length < (cs ++ ' ' :: ys).length + 1 from
                  Nat.lt_succ_self _),
                ih cs rts hrts, ← htxs]
              rfl
            · rw [if_neg h4] at h
              rw [if_neg h4]
              obtain ⟨rts, hrts, htxs⟩ := Option.map_eq_some'.mp h
              rw [tokenizeGo_eq_tokenize
                (show (cs ++ ' ' :: ys).length < (cs ++ ' ' :: ys).length + 1 from
                  Nat.lt_succ_self _),
                ih cs rts hrts, ← htxs]
              rfl

theorem tokenize_append_year {raw : List Char} {toks : List (List Char)} (Y : Nat)
    (htok : tokenize raw = some toks) :
    tokenize (raw ++ [' '] ++ natDigits Y) = some (toks ++ [[' '], natDigits Y]) := by
  have hys := tokenize_space_digits (natDigits_ne_nil Y) (natDigits_all_digit Y)
  have := tokenize_append_space hys (raw.length + 1) raw toks htok
  rw [List.append_assoc]
  exact this

/-! ### Digit tokens are not word tokens -/

theorem toLowerCh_digit {c : Char} (h : isDigitCh c = true) : toLowerCh c = c := by
  simp only [isDigitCh, Bool.and_eq_true, decide_eq_true_eq] at h
  rw [toLowerCh, if_neg]
  simp only [isUpperCh, Bool.and_eq_true, decide_eq_true_eq]
  omega

theorem beq_head_false {a b : Char} (h : a.toNat ≠ b.toNat) (as bs : List Char) :
    ((a :: as) == (b :: bs)) = false := by
  have hab : (a == b) = false := by
    rcases hh : a == b with _ | _
    · rfl
    · exact absurd (congrArg Char.toNat (eq_of_beq hh)) h
  simp [List.cons_beq_cons, hab]

theorem lowerTok_digits {c : Char} {cs : List Char} (h : isDigitCh c = true) :
    lowerTok (c :: cs) = c :: lowerTok cs := by
  simp [lowerTok, toLowerCh_digit h]

theorem digit_toNat_le {c : Char} (h : isDigitCh c = true) : c.toNat ≤ 57 := by
  simp only [isDigitCh, Bool.and_eq_true, decide_eq_true_eq] at h
  omega

theorem hmsVal_num {t : List Char} (h : isNumTok t = true) : hmsVal t = none := by
  simp only [isNumTok, Bool.and_eq_true] at h
  cases t with
  | nil => simp at h
  | cons c cs =>
    have hc : isDigitCh c = true := by
      have := h.2
      simp only [List.all_cons, Bool.and_eq_true] at this
      exact this.1
    have hle := digit_toNat_le hc
    have hfalse : ∀ (b : Char) (bs : List Char), 97 ≤ b.toNat →
        ((c :: lowerTok cs) == (b :: bs)) = false :=
      fun b bs hb => beq_head_false (by omega) _ _
    rw [hmsVal]
    simp only [lowerTok_digits hc]
    rw [hfalse 'h' [] (by decide), hfalse 'h' ['o', 'u', 'r'] (by decide),
      hfalse 'h' ['o', 'u', 'r', 's'] (by decide),
      hfalse 'm' [] (by decide), hfalse 'm' ['i', 'n', 'u', 't', 'e'] (by decide),
      hfalse 'm' ['i', 'n', 'u', 't', 'e', 's'] (by decide),
      hfalse 's' [] (by decide), hfalse 's' ['e', 'c', 'o', 'n', 'd'] (by decide),
      hfalse 's' ['e', 'c', 'o', 'n', 'd', 's'] (by decide)]
    rfl

theorem ampmVal_num {t : List Char} (h : isNumTok t = true) : ampmVal t = none := by
  simp only [isNumTok, Bool.and_eq_true] at h
  cases t with
  | nil => simp at h
  | cons c cs =>
    have hc : isDigitCh c = true := by
      have := h.2
      simp only [List.all_cons, Bool.and_eq_true] at this
      exact this.1
    have hle := digit_toNat_le hc
    have hfalse : ∀ (b : Char) (bs : List Char), 97 ≤ b.toNat →
        ((c :: lowerTok cs) == (b :: bs)) = false :=
      fun b bs hb => beq_head_false (by omega) _ _
    rw [ampmVal]
    simp only [lowerTok_digits hc]
    rw [hfalse 'a' ['m'] (by decide), hfalse 'a' [] (by decide),
      hfalse 'p' ['m'] (by decide), hfalse 'p' [] (by decide)]
    rfl

theorem isPertainTok_num {t : List Char} (h : isNumTok t = true) :
    isPertainTok t = false := by
  simp only [isNumTok, Bool.and_eq_true] at h
  cases t with
  | nil => simp at h
  | cons c cs =>
    have hc : isDigitCh c = true := by
      have := h.2
      simp only [List.all_cons, Bool.and_eq_true] at this
      exact this.1
    have hle := digit_toNat_le hc
    rw [isPertainTok]
    simp only [lowerTok_digits hc]
    rw [beq_head_false (show c.toNat ≠ ('o' : Char).toNat by
      rw [show ('o' : Char).toNat = 111 from rfl]; omega) (lowerTok cs) ['f']]

theorem lowerTok_length (t : List Char) : (lowerTok t).length = t.length :=
  List.length_map t toLowerCh

theorem isJumpTok_length {t : List Char} (h : isJumpTok t = true) : t.length ≤ 3 := by
  rw [isJumpTok] at h
  have hmem : lowerTok t ∈ jumpTok := by simpa using h
  have hall : ∀ x ∈ jumpTok, x.length ≤ 3 := by decide
  have := hall (lowerTok t) hmem
  rwa [lowerTok_length] at this

theorem monthWordVal_num {t : List Char} (h : isNumTok t = true) :
    monthWordVal t = none := by
  simp only [isNumTok, Bool.and_eq_true] at h
  cases t with
  | nil => simp at h
  | cons c cs =>
    have hc : isDigitCh c = true := by
      have := h.2
      simp only [List.all_cons, Bool.and_eq_true] at this
      exact this.1
    have hle := digit_toNat_le hc
    have hfalse : ∀ (b : Char) (bs : List Char), 97 ≤ b.toNat →
        ((b :: bs) == (c :: lowerTok cs)) = false :=
      fun b bs hb => beq_head_false (by omega) _ _
    rw [monthWordVal]
    rw [List.find?_eq_none.mpr]
    · rfl
    · intro pr hpr
      simp only [lowerTok_digits hc]
      fin_cases hpr <;>
        simp only [decide_eq_true_eq] <;>
        · intro hcontra
          obtain ⟨hhead, -⟩ := List.cons.inj (eq_of_beq hcontra)
          have h97 : 97 ≤ c.toNat := by rw [← hhead]; decide
          omega

theorem monthWordVal_le12 {t : List Char} {m : Nat} (h : monthWordVal t = some m) :
    m ≤ 12 := by
  rw [monthWordVal] at h
  obtain ⟨pr, hfind, hpr⟩ := Option.map_eq_some'.mp h
  have hmem := List.mem_of_find?_eq_some hfind
  have hall : ∀ x ∈ monthTable, x.2 ≤ 12 := by decide
  rw [← hpr]
  exact hall pr hmem

/-! ### `_ymd` append bookkeeping -/

/-- Structural well-formedness of the `_ymd` label indices: each points
inside `vals` and no two labels share a member. -/
def ymdWF (y : YMD) : Prop :=
  (∀ j, y.ystridx = some j → j < y.vals.length) ∧
  (∀ j, y.mstridx = some j → j < y.vals.length) ∧
  (∀ j, y.dstridx = some j → j < y.vals.length) ∧
  (∀ j, y.ystridx = some j → y.mstridx ≠ some j) ∧
  (∀ j, y.ystridx = some j → y.dstridx ≠ some j) ∧
  (∀ j, y.mstridx = some j → y.dstridx ≠ some j)

/-- One `_ymd.append` extends `vals` by one member and sets at most one of
the three label indices, and only from `none`, to the new member. -/
def labUpd (y y' : YMD) (n : Nat) : Prop :=
  (y'.ystridx = y.ystridx ∧ y'.mstridx = y.mstridx ∧ y'.dstridx = y.dstridx) ∨
  (y.ystridx = none ∧ y'.ystridx = some n ∧ y'.mstridx = y.mstridx ∧ y'.dstridx = y.dstridx) ∨
  (y.mstridx = none ∧ y'.mstridx = some n ∧ y'.ystridx = y.ystridx ∧ y'.dstridx = y.dstridx) ∨
  (y.dstridx = none ∧ y'.dstridx = some n ∧ y'.ystridx = y.ystridx ∧ y'.mstridx = y.mstridx)

theorem setLab_spec {y y' : YMD} {lab : Option YLab} (h : y.setLab lab = some y') :
    y'.vals = y.vals ∧ y'.century = y.century ∧ labUpd y y' (y.vals.length - 1) := by
  cases lab with
  | none =>
    obtain rfl : y = y' := Option.some.inj h
    exact ⟨rfl, rfl, Or.inl ⟨rfl, rfl, rfl⟩⟩
  | some lb =>
    cases lb with
    | Y =>
      rw [YMD.setLab] at h
      by_cases hy : y.ystridx.isSome = true
      · rw [if_pos hy] at h; exact absurd h (by simp)
      · rw [if_neg hy] at h
        obtain rfl := Option.some.inj h
        exact ⟨rfl, rfl, Or.inr (Or.inl ⟨Option.not_isSome_iff_eq_none.mp hy, rfl, rfl, rfl⟩)⟩
    | M =>
      rw [YMD.setLab] at h
      by_cases hy : y.mstridx.isSome = true
      · rw [if_pos hy] at h; exact absurd h (by simp)
      · rw [if_neg hy] at h
        obtain rfl := Option.some.inj h
        exact ⟨rfl, rfl, Or.inr (Or.inr (Or.inl ⟨Option.not_isSome_iff_eq_none.mp hy, rfl, rfl, rfl⟩))⟩
    | D =>
      rw [YMD.setLab] at h
      by_cases hy : y.dstridx.isSome = true
      · rw [if_pos hy] at h; exact absurd h (by simp)
      · rw [if_neg hy] at h
        obtain rfl := Option.some.inj h
        exact ⟨rfl, rfl, Or.inr (Or.inr (Or.inr ⟨Option.not_isSome_iff_eq_none.mp hy, rfl, rfl, rfl⟩))⟩

theorem appendVal_spec {y y' : YMD} {n : Nat} {lab : Option YLab}
    (h : y.appendVal n lab = some y') :
    y'.vals = y.vals ++ [n] ∧ labUpd y y' y.vals.length := by
  rw [YMD.appendVal] at h
  by_cases h1 : 100 < n
  · rw [if_pos h1] at h
    by_cases h2 : (lab = none ∨ lab = some YLab.Y)
    · rw [if_pos (by simpa using h2)] at h
      obtain ⟨hv, -, hl⟩ := setLab_spec h
      refine ⟨by simpa using hv, ?_⟩
      simpa [List.length_append] using hl
    · rw [if_neg (by simpa using h2)] at h
      exact absurd h (by simp)
  · rw [if_neg h1] at h
    obtain ⟨hv, -, hl⟩ := setLab_spec h
    refine ⟨by simpa using hv, ?_⟩
    simpa [List.length_append] using hl

theorem appendStr_spec {y y' : YMD} {s : List Char} {lab : Option YLab}
    (h : y.appendStr s lab = some y') :
    y'.vals = y.vals ++ [natOfDigits s] ∧ labUpd y y' y.vals.length := by
  rw [YMD.appendStr] at h
  by_cases h0 : isNumTok s = true
  · rw [if_pos h0] at h
    by_cases h1 : 2 < s.length
    · rw [if_pos (by simpa using h1)] at h
      by_cases h2 : (lab = none ∨ lab = some YLab.Y)
      · rw [if_pos (by simpa using h2)] at h
        obtain ⟨hv, -, hl⟩ := setLab_spec h
        refine ⟨by simpa using hv, ?_⟩
        simpa [List.length_append] using hl
      · rw [if_neg (by simpa using h2)] at h
        exact absurd h (by simp)
    · rw [if_neg (by simpa using h1)] at h
      obtain ⟨hv, -, hl⟩ := setLab_spec h
      refine ⟨by simpa using hv, ?_⟩
      simpa [List.length_append] using hl
  · rw [if_neg h0] at h
    exact absurd h (by simp)

theorem setLab_Y_spec {y y' : YMD} (h : y.setLab (some .Y) = some y') :
    y.ystridx = none ∧ y'.ystridx = some (y.vals.length - 1) ∧ y'.vals = y.vals ∧
    y'.mstridx = y.mstridx ∧ y'.dstridx = y.dstridx := by
  rw [YMD.setLab] at h
  by_cases hy : y.ystridx.isSome = true
  · rw [if_pos hy] at h; exact absurd h (by simp)
  · rw [if_neg hy] at h
    obtain rfl := Option.some.inj h
    exact ⟨Option.not_isSome_iff_eq_none.mp hy, rfl, rfl, rfl, rfl⟩

theorem appendVal_forceY {y y' : YMD} {n : Nat} {lab : Option YLab}
    (h100 : 100 < n) (h : y.appendVal n lab = some y') :
    y'.vals = y.vals ++ [n] ∧ y'.ystridx = some y.vals.length ∧
    y'.mstridx = y.mstridx ∧ y'.dstridx = y.dstridx := by
  rw [YMD.appendVal, if_pos h100] at h
  by_cases h2 : (lab = none ∨ lab = some YLab.Y)
  · rw [if_pos (by simpa using h2)] at h
    obtain ⟨-, hy, hv, hm, hd⟩ := setLab_Y_spec h
    refine ⟨by simpa using hv, ?_, hm, hd⟩
    rw [hy]
    simp [List.length_append]
  · rw [if_neg (by simpa using h2)] at h
    exact absurd h (by simp)

theorem appendStr_forceY {y y' : YMD} {s : List Char} {lab : Option YLab}
    (hlen : 2 < s.length) (h : y.appendStr s lab = some y') :
    y'.vals = y.vals ++ [natOfDigits s] ∧ y'.ystridx = some y.vals.length ∧
    y'.mstridx = y.mstridx ∧ y'.dstridx = y.dstridx := by
  rw [YMD.appendStr] at h
  by_cases h0 : isNumTok s = true
  · rw [if_pos h0, if_pos (by simpa using hlen)] at h
    by_cases h2 : (lab = none ∨ lab = some YLab.Y)
    · rw [if_pos (by simpa using h2)] at h
      obtain ⟨-, hy, hv, hm, hd⟩ := setLab_Y_spec h
      refine ⟨by simpa using hv, ?_, hm, hd⟩
      rw [hy]
      simp [List.length_append]
    · rw [if_neg (by simpa using h2)] at h
      exact absurd h (by simp)
  · rw [if_neg h0] at h
    exact absurd h (by simp)

theorem getD_snoc {A : Type} (l : List A) (a d : A) : (l ++ [a]).getD l.length d = a := by
  induction l with
  | nil => rfl
  | cons x xs ih => exact ih

theorem getD_append_left {A : Type} {l : List A} {k : Nat} (l' : List A) (d : A)
    (h : k < l.length) : (l ++ l').getD k d = l.getD k d := by
  induction l generalizing k with
  | nil => exact absurd h (by simp)
  | cons x xs ih =>
    cases k with
    | zero => rfl
    | succ k =>
      simp only [List.length_cons] at h
      exact ih (by omega)

theorem getD_append_self {A : Type} (l : List A) (a : A) (rest : List A) (d : A) :
    (l ++ a :: rest).getD l.length d = a := by
  induction l with
  | nil => rfl
  | cons x xs ih => exact ih

theorem ymdWF_step {y y' : YMD} {w : Nat}
    (hwf : ymdWF y) (hv : y'.vals = y.vals ++ [w]) (hl : labUpd y y' y.vals.length) :
    ymdWF y' := by
  obtain ⟨w1, w2, w3, w4, w5, w6⟩ := hwf
  have hlen : y'.vals.length = y.vals.length + 1 := by rw [hv]; simp
  rcases hl with ⟨e1, e2, e3⟩ | ⟨e0, e1, e2, e3⟩ | ⟨e0, e1, e2, e3⟩ | ⟨e0, e1, e2, e3⟩
  · refine ⟨?_, ?_, ?_, ?_, ?_, ?_⟩ <;> simp only [e1, e2, e3, hlen]
    · exact fun j hj => Nat.lt_succ_of_lt (w1 j hj)
    · exact fun j hj => Nat.lt_succ_of_lt (w2 j hj)
    · exact fun j hj => Nat.lt_succ_of_lt (w3 j hj)
    · exact w4
    · exact w5
    · exact w6
  · refine ⟨?_, ?_, ?_, ?_, ?_, ?_⟩ <;> simp only [e1, e2, e3, hlen]
    · intro j hj
      obtain rfl := Option.some.inj hj
      omega
    · exact fun j hj => Nat.lt_succ_of_lt (w2 j hj)
    · exact fun j hj => Nat.lt_succ_of_lt (w3 j hj)
    · intro j hj hcon
      obtain rfl := Option.some.inj hj
      exact absurd (w2 _ hcon) (by omega)
    · intro j hj hcon
      obtain rfl := Option.some.inj hj
      exact absurd (w3 _ hcon) (by omega)
    · exact w6
  · refine ⟨?_, ?_, ?_, ?_, ?_, ?_⟩ <;> simp only [e1, e2, e3, hlen]
    · exact fun j hj => Nat.lt_succ_of_lt (w1 j hj)
    · intro j hj
      obtain rfl := Option.some.inj hj
      omega
    · exact fun j hj => Nat.lt_succ_of_lt (w3 j hj)
    · intro j hj hcon
      obtain rfl := Option.some.inj hcon
      exact absurd (w1 _ hj) (by omega)
    · exact w5
    · intro j hj hcon
      obtain rfl := Option.some.inj hj
      exact absurd (w3 _ hcon) (by omega)
  · refine ⟨?_, ?_, ?_, ?_, ?_, ?_⟩ <;> simp only [e1, e2, e3, hlen]
    · exact fun j hj => Nat.lt_succ_of_lt (w1 j hj)
    · exact fun j hj => Nat.lt_succ_of_lt (w2 j hj)
    · intro j hj
      obtain rfl := Option.some.inj hj
      omega
    · exact w4
    · intro j hj hcon
      obtain rfl := Option.some.inj hcon
      exact absurd (w1 _ hj) (by omega)
    · intro j hj hcon
      obtain rfl := Option.some.inj hcon
      exact absurd (w2 _ hj) (by omega)

/-- The `Y`-labelled member, once placed, survives any later append. -/
theorem StA_step {y y' : YMD} {w k : Nat}
    (hwf : ymdWF y) (hk : y.ystridx = some k)
    (hv : y'.vals = y.vals ++ [w]) (hl : labUpd y y' y.vals.length) :
    y'.ystridx = some k ∧ y'.vals.getD k 0 = y.vals.getD k 0 := by
  have hklen : k < y.vals.length := hwf.1 k hk
  have hy : y'.ystridx = some k := by
    rcases hl with ⟨e1, -, -⟩ | ⟨e0, -, -, -⟩ | ⟨-, -, e2, -⟩ | ⟨-, -, e2, -⟩
    · rw [e1, hk]
    · rw [e0] at hk
      exact absurd hk (by simp)
    · rw [e2, hk]
    · rw [e2, hk]
  exact ⟨hy, by rw [hv, getD_append_left _ _ hklen]⟩

theorem daysInMonth_getD_le31 (y m : Nat) : (daysInMonth y m).getD 0 ≤ 31 := by
  rw [daysInMonth]
  by_cases h1 : (m = 1 || m = 3 || m = 5 || m = 7 || m = 8 || m = 10 || m = 12) = true
  · rw [if_pos h1]; rfl
  · rw [if_neg h1]
    by_cases h2 : (m = 4 || m = 6 || m = 9 || m = 11) = true
    · rw [if_pos h2]; exact by norm_num
    · rw [if_neg h2]
      by_cases h3 : m = 2
      · rw [if_pos (by simpa using h3)]
        by_cases h4 : isLeap y = true
        · rw [if_pos h4]; exact by norm_num
        · rw [if_neg h4]; exact by norm_num
      · rw [if_neg (by simpa using h3)]; exact by norm_num

theorem daysInMonth_gt12 {y m : Nat} (h : 12 < m) : daysInMonth y m = none := by
  rw [daysInMonth, if_neg (by simp; omega), if_neg (by simp; omega),
    if_neg (by omega)]

theorem couldBeDay_gt100 {y : YMD} {w : Nat} (h : 100 < w) :
    y.couldBeDay w = false := by
  rw [YMD.couldBeDay]
  by_cases h1 : y.dstridx.isSome = true
  · rw [if_pos h1]
  · rw [if_neg h1]
    by_cases h2 : y.mstridx.isNone = true
    · rw [if_pos h2]
      simp only [Bool.and_eq_false_iff, decide_eq_false_iff_not]
      right
      omega
    · rw [if_neg h2]
      by_cases h3 : y.ystridx.isNone = true
      · rw [if_pos h3]
        simp only [Bool.and_eq_false_iff, decide_eq_false_iff_not]
        right
        have := daysInMonth_getD_le31 2000 (y.vals.getD (y.mstridx.getD 0) 0)
        omega
      · rw [if_neg h3]
        simp only [Bool.and_eq_false_iff, decide_eq_false_iff_not]
        right
        have := daysInMonth_getD_le31 (y.vals.getD (y.ystridx.getD 0) 0)
          (y.vals.getD (y.mstridx.getD 0) 0)
        omega

theorem convertyear_gt100 {w : Nat} (cy : Nat) (b : Bool) (h : 100 < w) :
    convertyear cy w b = w := by
  rw [convertyear, if_neg]
  simp only [Bool.and_eq_true, decide_eq_true_eq]
  intro hcon
  omega

theorem natDigits_length_ge3 {n : Nat} (h : 100 ≤ n) : 3 ≤ (natDigits n).length := by
  rw [natDigits_step (by omega), natDigits_step (by omega)]
  have h1 : natDigits (n / 10 / 10) ≠ [] := natDigits_ne_nil _
  have h2 : 1 ≤ (natDigits (n / 10 / 10)).length := by
    cases hh : natDigits (n / 10 / 10) with
    | nil => exact absurd hh h1
    | cons a l => simp
  simp only [List.length_append, List.length_cons, List.length_nil]
  omega

theorem lenStrids_le3 (y : YMD) : y.lenStrids ≤ 3 := by
  rw [YMD.lenStrids]
  by_cases h1 : y.ystridx.isSome = true <;> by_cases h2 : y.mstridx.isSome = true <;>
    by_cases h3 : y.dstridx.isSome = true <;> simp [h1, h2, h3]

theorem resolveYmd_gt3 {y : YMD} (h : 3 < y.vals.length) : resolveYmd y = none := by
  have hls := lenStrids_le3 y
  rw [resolveYmd, if_neg, if_pos (by simpa using h)]
  simp only [Bool.or_eq_true, Bool.and_eq_true, decide_eq_true_eq]
  omega

theorem resolveFromStridxs_eq (y : YMD) : resolveFromStridxs y =
    (if y.vals.length = 3 && y.lenStrids = 2 then
      (some (y.vals.getD (y.ystridx.getD
          ((([0, 1, 2] : List Nat).filter
            (fun k => !([y.ystridx, y.mstridx, y.dstridx].filterMap id).contains k)).headD 0)) 0),
       some (y.vals.getD (y.mstridx.getD
          ((([0, 1, 2] : List Nat).filter
            (fun k => !([y.ystridx, y.mstridx, y.dstridx].filterMap id).contains k)).headD 0)) 0),
       some (y.vals.getD (y.dstridx.getD
          ((([0, 1, 2] : List Nat).filter
            (fun k => !([y.ystridx, y.mstridx, y.dstridx].filterMap id).contains k)).headD 0)) 0))
    else
      (y.ystridx.map (fun k => y.vals.getD k 0),
       y.mstridx.map (fun k => y.vals.getD k 0),
       y.dstridx.map (fun k => y.vals.getD k 0))) := rfl

theorem resolveYmd_eq (y : YMD) : resolveYmd y =
    (if (y.vals.length = y.lenStrids && 0 < y.lenStrids) ||
        (y.vals.length = 3 && y.lenStrids = 2) then
      some (resolveFromStridxs y)
    else if 3 < y.vals.length then none
    else if y.vals.length = 1 || (y.mstridx.isSome && y.vals.length = 2) then
      if 1 < y.vals.length || y.mstridx.isNone then
        if 31 < (match y.mstridx with
            | some k => y.vals.getD (if k = 0 then y.vals.length - 1 else k - 1) 0
            | none => y.vals.getD 0 0) then
          some (some (match y.mstridx with
            | some k => y.vals.getD (if k = 0 then y.vals.length - 1 else k - 1) 0
            | none => y.vals.getD 0 0), y.mstridx.map (fun k => y.vals.getD k 0), none)
        else
          some (none, y.mstridx.map (fun k => y.vals.getD k 0),
            some (match y.mstridx with
              | some k => y.vals.getD (if k = 0 then y.vals.length - 1 else k - 1) 0
              | none => y.vals.getD 0 0))
      else some (none, y.mstridx.map (fun k => y.vals.getD k 0), none)
    else if y.vals.length = 2 then
      if 31 < y.vals.getD 0 0 then
        some (some (y.vals.getD 0 0), some (y.vals.getD 1 0), none)
      else if 31 < y.vals.getD 1 0 then
        some (some (y.vals.getD 1 0), some (y.vals.getD 0 0), none)
      else some (none, some (y.vals.getD 0 0), some (y.vals.getD 1 0))
    else if y.vals.length = 3 then
      match y.mstridx with
      | some 0 =>
        if 31 < y.vals.getD 1 0 then
          some (some (y.vals.getD 1 0), some (y.vals.getD 0 0), some (y.vals.getD 2 0))
        else
          some (some (y.vals.getD 2 0), some (y.vals.getD 0 0), some (y.vals.getD 1 0))
      | some 1 =>
        if 31 < y.vals.getD 0 0 then
          some (some (y.vals.getD 0 0), some (y.vals.getD 1 0), some (y.vals.getD 2 0))
        else
          some (some (y.vals.getD 2 0), some (y.vals.getD 1 0), some (y.vals.getD 0 0))
      | some 2 =>
        if 31 < y.vals.getD 1 0 then
          some (some (y.vals.getD 1 0), some (y.vals.getD 2 0), some (y.vals.getD 0 0))
        else
          some (some (y.vals.getD 0 0), some (y.vals.getD 2 0), some (y.vals.getD 1 0))
      | _ =>
        if 31 < y.vals.getD 0 0 || y.ystridx == some 0 then
          some (some (y.vals.getD 0 0), some (y.vals.getD 1 0), some (y.vals.getD 2 0))
        else if 12 < y.vals.getD 0 0 then
          some (some (y.vals.getD 2 0), some (y.vals.getD 1 0), some (y.vals.getD 0 0))
        else some (some (y.vals.getD 2 0), some (y.vals.getD 0 0), some (y.vals.getD 1 0))
    else some (none, none, none)) := rfl

/-- The year member of a well-formed `_ymd` holding an explicit year (a
`Y`-labelled member above 100): `resolve_ymd` either extracts it as the
year, or yields a month above 12 or a day above 31 (which `_build_naive`
then rejects). -/
theorem resolveYmd_year {y : YMD} {k v : Nat} {r : Option Nat × Option Nat × Option Nat}
    (hwf : ymdWF y) (hk : y.ystridx = some k) (hkv : y.vals.getD k 0 = v)
    (h100 : 100 < v) (hres : resolveYmd y = some r) :
    r.1 = some v ∨ (∃ w, r.2.1 = some w ∧ 12 < w) ∨ (∃ w, r.2.2 = some w ∧ 31 < w) := by
  obtain ⟨w1, w2, w3, w4, w5, w6⟩ := hwf
  have hkL : k < y.vals.length := w1 k hk
  rw [resolveYmd_eq] at hres
  by_cases h1 : ((y.vals.length = y.lenStrids && 0 < y.lenStrids) ||
      (y.vals.length = 3 && y.lenStrids = 2)) = true
  · rw [if_pos h1, resolveFromStridxs_eq] at hres
    by_cases h1b : (y.vals.length = 3 && y.lenStrids = 2) = true
    · rw [if_pos h1b] at hres
      obtain rfl := Option.some.inj hres
      left
      rw [hk]
      exact congrArg some (by simpa using hkv)
    · rw [if_neg h1b] at hres
      obtain rfl := Option.some.inj hres
      left
      rw [hk]
      exact congrArg some (by simpa using hkv)
  · rw [if_neg h1] at hres
    by_cases h2 : 3 < y.vals.length
    · rw [if_pos (by simpa using h2)] at hres
      exact absurd hres (by simp)
    · rw [if_neg (by simpa using h2)] at hres
      have hSy : y.lenStrids = 1 + (if y.mstridx.isSome then 1 else 0) +
          (if y.dstridx.isSome then 1 else 0) := by
        rw [YMD.lenStrids, hk]
        rfl
      simp only [Bool.or_eq_true, Bool.and_eq_true, decide_eq_true_eq, not_or,
        not_and] at h1
      by_cases h3 : (y.vals.length = 1 || (y.mstridx.isSome && y.vals.length = 2)) = true
      · exfalso
        simp only [Bool.or_eq_true, Bool.and_eq_true, decide_eq_true_eq] at h3
        rcases h3 with hL1 | ⟨hms, hL2⟩
        · have hS1 : y.lenStrids ≠ 1 := fun hS => (h1.1 (by omega)) (by omega)
          have hor : y.mstridx.isSome = true ∨ y.dstridx.isSome = true := by
            by_cases ha : y.mstridx.isSome = true
            · exact Or.inl ha
            · by_cases hb : y.dstridx.isSome = true
              · exact Or.inr hb
              · rw [hSy, if_neg ha, if_neg hb] at hS1
                omega
          rcases hor with ha | hb
          · obtain ⟨jm, hjm⟩ := Option.isSome_iff_exists.mp ha
            have := w2 jm hjm
            have hk0 : k = 0 := by omega
            have hj0 : jm = 0 := by omega
            exact w4 k hk (by rw [hjm, hj0, hk0])
          · obtain ⟨jd, hjd⟩ := Option.isSome_iff_exists.mp hb
            have := w3 jd hjd
            have hk0 : k = 0 := by omega
            have hj0 : jd = 0 := by omega
            exact w5 k hk (by rw [hjd, hj0, hk0])
        · obtain ⟨jm, hjm⟩ := Option.isSome_iff_exists.mp hms
          have hjmL := w2 jm hjm
          have hS2 : y.lenStrids ≠ 2 := fun hS => (h1.1 (by omega)) (by omega)
          have hds : y.dstridx.isSome = true := by
            by_cases hb : y.dstridx.isSome = true
            · exact hb
            · rw [hSy, if_pos hms, if_neg hb] at hS2
              omega
          obtain ⟨jd, hjd⟩ := Option.isSome_iff_exists.mp hds
          have hjdL := w3 jd hjd
          have hne1 := w4 k hk
          have hne2 := w5 k hk
          have hne3 := w6 jm hjm
          rw [hjm] at hne1
          rw [hjd] at hne2 hne3
          have e1 : k ≠ jm := fun he => hne1 (by rw [he])
          have e2 : k ≠ jd := fun he => hne2 (by rw [he])
          have e3 : jm ≠ jd := fun he => hne3 (by rw [he])
          omega
      · rw [if_neg h3] at hres
        simp only [Bool.or_eq_true, Bool.and_eq_true, decide_eq_true_eq, not_or,
          not_and] at h3
        by_cases h4 : y.vals.length = 2
        · rw [if_pos (by simpa using h4)] at hres
          have hmn : y.mstridx.isSome = false := by
            by_cases hb : y.mstridx.isSome = true
            · exact absurd h4 (h3.2 hb)
            · simpa using hb
          have hk2 : k < 2 := by omega
          interval_cases k
          · have ha : 31 < y.vals.getD 0 0 := by omega
            rw [if_pos (by simpa using ha)] at hres
            obtain rfl := Option.some.inj hres
            left
            exact congrArg some hkv
          · by_cases ha : 31 < y.vals.getD 0 0
            · rw [if_pos (by simpa using ha)] at hres
              obtain rfl := Option.some.inj hres
              right; left
              exact ⟨v, congrArg some hkv, by omega⟩
            · rw [if_neg (by simpa using ha), if_pos (by omega)] at hres
              obtain rfl := Option.some.inj hres
              left
              exact congrArg some hkv
        · rw [if_neg (by simpa using h4)] at hres
          by_cases h5 : y.vals.length = 3
          · rw [if_pos (by simpa using h5)] at hres
            have hS23 : y.lenStrids ≠ 3 ∧ y.lenStrids ≠ 2 := by
              constructor
              · intro hS
                exact (h1.1 (by omega)) (by omega)
              · intro hS
                exact (h1.2 h5) hS
            have hmn : y.mstridx = none := by
              by_cases ha : y.mstridx.isSome = true
              · exfalso
                by_cases hb : y.dstridx.isSome = true
                · rw [hSy, if_pos ha, if_pos hb] at hS23
                  omega
                · rw [hSy, if_pos ha, if_neg hb] at hS23
                  omega
              · simpa using ha
            rw [hmn] at hres
            dsimp only at hres
            have hk3 : k < 3 := by omega
            interval_cases k
            · rw [if_pos (by rw [hk]; simp)] at hres
              obtain rfl := Option.some.inj hres
              left
              exact congrArg some hkv
            · by_cases ha : 31 < y.vals.getD 0 0
              · rw [if_pos (by simp only [Bool.or_eq_true, decide_eq_true_eq]; exact Or.inl ha)] at hres
                obtain rfl := Option.some.inj hres
                right; left
                exact ⟨v, congrArg some hkv, by omega⟩
              · rw [if_neg (by
                    rw [hk]
                    simp only [Bool.or_eq_true, decide_eq_true_eq]
                    rintro (hx | hx)
                    · omega
                    · exact absurd hx (by decide))] at hres
                by_cases hb : 12 < y.vals.getD 0 0
                · rw [if_pos (by simpa using hb)] at hres
                  obtain rfl := Option.some.inj hres
                  right; left
                  exact ⟨v, congrArg some hkv, by omega⟩
                · rw [if_neg (by simpa using hb)] at hres
                  obtain rfl := Option.some.inj hres
                  right; right
                  exact ⟨v, congrArg some hkv, by omega⟩
            · by_cases ha : 31 < y.vals.getD 0 0
              · rw [if_pos (by simp only [Bool.or_eq_true, decide_eq_true_eq]; exact Or.inl ha)] at hres
                obtain rfl := Option.some.inj hres
                right; right
                exact ⟨v, congrArg some hkv, by omega⟩
              · rw [if_neg (by
                    rw [hk]
                    simp only [Bool.or_eq_true, decide_eq_true_eq]
                    rintro (hx | hx)
                    · omega
                    · exact absurd hx (by decide))] at hres
                by_cases hb : 12 < y.vals.getD 0 0
                · rw [if_pos (by simpa using hb)] at hres
                  obtain rfl := Option.some.inj hres
                  left
                  exact congrArg some hkv
                · rw [if_neg (by simpa using hb)] at hres
                  obtain rfl := Option.some.inj hres
                  left
                  exact congrArg some hkv
          · rw [if_neg (by simpa using h5)] at hres
            exfalso
            have hL1 : y.vals.length ≠ 1 := by
              intro hL
              exact h3.1 hL
            omega

theorem buildNaive_eq (today : Date3) (res : PRes) : buildNaive today res =
    (if resCount res = 0 then none
     else
       match (match res.day with
         | some d => some d
         | none =>
           match daysInMonth (res.year.getD today.year) (res.month.getD today.month) with
           | none => none
           | some dim => some (if dim < today.day then dim else today.day)) with
       | none => none
       | some d =>
         if validDateTime { year := res.year.getD today.year, month := res.month.getD today.month, day := d, hour := res.hour.getD 0, minute := res.minute.getD 0, second := res.second.getD 0 } then
           some { year := res.year.getD today.year, month := res.month.getD today.month, day := d, hour := res.hour.getD 0, minute := res.minute.getD 0, second := res.second.getD 0 }
         else none) := rfl

theorem buildNaive_year {today : Date3} {res : PRes} {dt : PyDateTime} {w : Nat}
    (hy : res.year = some w) (h : buildNaive today res = some dt) : dt.year = w := by
  rw [buildNaive_eq] at h
  by_cases h0 : resCount res = 0
  · rw [if_pos h0] at h
    exact absurd h (by simp)
  · rw [if_neg h0] at h
    split at h
    · exact absurd h (by simp)
    · split at h
      · obtain rfl := Option.some.inj h
        simp [hy]
      · exact absurd h (by simp)

theorem buildNaive_bad_month {today : Date3} {res : PRes} {w : Nat}
    (hm : res.month = some w) (hw : 12 < w) : buildNaive today res = none := by
  rw [buildNaive_eq]
  by_cases h0 : resCount res = 0
  · rw [if_pos h0]
  · rw [if_neg h0]
    rcases hd : res.day with _ | d
    · dsimp only
      rw [hm, Option.getD_some, daysInMonth_gt12 hw]
    · dsimp only
      rw [if_neg]
      simp only [validDateTime, hm, Option.getD_some, Bool.and_eq_true, decide_eq_true_eq]
      intro hcon
      omega

theorem buildNaive_bad_day {today : Date3} {res : PRes} {w : Nat}
    (hd : res.day = some w) (hw : 31 < w) : buildNaive today res = none := by
  rw [buildNaive_eq]
  by_cases h0 : resCount res = 0
  · rw [if_pos h0]
  · rw [if_neg h0]
    rw [hd]
    dsimp only
    rw [if_neg]
    simp only [validDateTime, Bool.and_eq_true, decide_eq_true_eq]
    intro hcon
    have := daysInMonth_getD_le31 (res.year.getD today.year) (res.month.getD today.month)
    omega

/-! ### The explicit-year loop invariant (C7) -/

/-- The explicit year sits in `_ymd` as the `Y`-labelled member. -/
def StA (v : Nat) (y : YMD) : Prop :=
  ∃ k, y.ystridx = some k ∧ y.vals.getD k 0 = v

/-- Token list with no hour/minute/second unit labels, no am/pm markers
and no `':'` token (out-of-range positions read as the empty token, which
is also clean). -/
def cleanToks (l : List (List Char)) : Prop :=
  ∀ j, hmsVal (tokAt l j) = none ∧ ampmVal (tokAt l j) = none ∧
    (tokAt l j == [':']) = false

/-- Invariant of the `_parse` token loop on input
`tokens(raw) ++ [" ", refYear]` (`n` raw tokens, explicit year token of
value `v` at position `p < n`): either the loop has not yet reached the
explicit year token, or that token was appended to `_ymd` with the `Y`
label, or it was consumed as `HH[MM]` (possible only with three `_ymd`
members, setting the hour) and the reference-year token is still pending,
or `_ymd` already has more than three members (which `resolve_ymd` will
reject). -/
def c7Inv (n p v i : Nat) (st : PSt) : Prop :=
  i ≤ p ∨ StA v st.ymd ∨
  (st.res.hour.isSome = true ∧ st.ymd.vals.length = 3 ∧ i ≤ n + 1) ∨
  3 < st.ymd.vals.length

theorem findHmsIdx_none {l : List (List Char)} (hc : cleanToks l) (i : Nat)
    (aj : Bool) : findHmsIdx l i aj = none := by
  rw [findHmsIdx]
  simp only [(hc (i + 1)).1, (hc (i + 2)).1, (hc (i - 1)).1, (hc (i - 2)).1,
    Option.isSome_none, Bool.and_false]
  rfl

theorem StA_create {y y' : YMD} {w : Nat} (hvals : y'.vals = y.vals ++ [w])
    (hy : y'.ystridx = some y.vals.length) : StA w y' :=
  ⟨y.vals.length, hy, by rw [hvals, getD_snoc]⟩

theorem StA_carry {y y' : YMD} {v w : Nat} (hwf : ymdWF y) (hA : StA v y)
    (hvals : y'.vals = y.vals ++ [w]) (hl : labUpd y y' y.vals.length) : StA v y' := by
  obtain ⟨k, hk, hkv⟩ := hA
  obtain ⟨hy, hg⟩ := StA_step hwf hk hvals hl
  exact ⟨k, hy, by rw [hg, hkv]⟩

theorem tokAt_of_get? {l : List (List Char)} {j : Nat} {t : List Char}
    (h : l.get? j = some t) : tokAt l j = t := by
  rw [tokAt, List.getD_eq_getElem?_getD, ← List.get?_eq_getElem?, h]
  rfl

set_option maxHeartbeats 1000000 in
/-- Invariant preservation through `_parse_numeric_token`. -/
theorem numTok_inv {l : List (List Char)} {n p v : Nat} {tp : List Char}
    (hclean : cleanToks l)
    (hln : l.length = n + 2)
    (hpn : p < n) (htp : tokAt l p = tp)
    (hlen4 : tp.length = 4) (hnumtp : isNumTok tp = true) (hval : natOfDigits tp = v)
    (h100 : 100 < v)
    (hyd : (tokAt l (n + 1)).length = 4)
    {i i2 : Nat} {st st2 : PSt}
    (hwf : ymdWF st.ymd) (hinv : c7Inv n p v i st)
    (hi : i < l.length)
    (h : numTok l i st = some (i2, st2)) :
    ymdWF st2.ymd ∧ c7Inv n p v (i2 + 1) st2 := by
  simp only [numTok, (hclean (i + 1)).1, (hclean (i + 1)).2.1, (hclean (i + 1)).2.2,
    (hclean (i + 2)).2.1, findHmsIdx_none hclean,
    Option.isSome_none, Option.isNone_none, Bool.not_false, Bool.and_true, Bool.and_false,
    Bool.or_false, Bool.false_and, Bool.or_true, Bool.false_eq_true, if_false] at h
  split at h
  -- ### 19990101T23[59] : hour/minute from the token, `_ymd` untouched
  · rename_i hg1
    simp only [Bool.and_eq_true, Bool.or_eq_true, decide_eq_true_eq] at hg1
    obtain ⟨⟨hlen3, hL24⟩, hhour⟩ := hg1
    rw [Option.some.injEq, Prod.mk.injEq] at h
    obtain ⟨rfl, rfl⟩ := h
    refine ⟨hwf, ?_⟩
    rcases hinv with hC | hA | hB | hD
    · by_cases hip : i = p
      · right; right; left
        refine ⟨?_, hlen3, by omega⟩
        dsimp only
        split <;> rfl
      · left; omega
    · right; left
      exact hA
    · exact absurd hB.1 (by
        rw [Option.isNone_iff_eq_none] at hhour
        rw [hhour]
        simp)
    · right; right; right
      exact hD
  · split at h
    -- ### six-digit token
    · rename_i hg2
      have hip : i ≠ p := fun he => by rw [he, htp, hlen4] at hg2; omega
      split at h
      -- #### YYMMDD with empty `_ymd`
      · rename_i hg2a
        split at h
        · exact absurd h (by simp)
        · rename_i y1 happ1
          split at h
          · exact absurd h (by simp)
          · rename_i y2 happ2
            split at h
            · exact absurd h (by simp)
            · rename_i y3 happ3
              rw [Option.some.injEq, Prod.mk.injEq] at h
              obtain ⟨rfl, rfl⟩ := h
              obtain ⟨hv1, hl1⟩ := appendStr_spec happ1
              obtain ⟨hv2, hl2⟩ := appendStr_spec happ2
              obtain ⟨hv3, hl3⟩ := appendStr_spec happ3
              have hwf1 := ymdWF_step hwf hv1 hl1
              have hwf2 := ymdWF_step hwf1 hv2 hl2
              have hwf3 := ymdWF_step hwf2 hv3 hl3
              refine ⟨hwf3, ?_⟩
              rcases hinv with hC | hA | hB | hD
              · left; omega
              · right; left
                exact StA_carry hwf2 (StA_carry hwf1 (StA_carry hwf hA hv1 hl1) hv2 hl2) hv3 hl3
              · omega
              · omega
      -- #### HHMMSS with nonempty `_ymd`
      · rename_i hg2a
        rw [Option.some.injEq, Prod.mk.injEq] at h
        obtain ⟨rfl, rfl⟩ := h
        refine ⟨hwf, ?_⟩
        rcases hinv with hC | hA | hB | hD
        · left; omega
        · right; left
          exact hA
        · right; right; left
          refine ⟨rfl, hB.2.1, ?_⟩
          have hin1 : i ≠ n + 1 := fun he => by rw [he, hyd] at hg2; omega
          omega
        · right; right; right
          exact hD
    · split at h
      -- ### YYYYMMDD[hhmm[ss]]
      · rename_i hg3
        simp only [Bool.or_eq_true, decide_eq_true_eq] at hg3
        have hip : i ≠ p := fun he => by
          rw [he, htp, hlen4] at hg3
          omega
        split at h
        · exact absurd h (by simp)
        · rename_i y1 happ1
          split at h
          · exact absurd h (by simp)
          · rename_i y2 happ2
            split at h
            · exact absurd h (by simp)
            · rename_i y3 happ3
              rw [Option.some.injEq, Prod.mk.injEq] at h
              obtain ⟨rfl, rfl⟩ := h
              obtain ⟨hv1, hl1⟩ := appendStr_spec happ1
              obtain ⟨hv2, hl2⟩ := appendStr_spec happ2
              obtain ⟨hv3, hl3⟩ := appendStr_spec happ3
              have hwf1 := ymdWF_step hwf hv1 hl1
              have hwf2 := ymdWF_step hwf1 hv2 hl2
              have hwf3 := ymdWF_step hwf2 hv3 hl3
              refine ⟨hwf3, ?_⟩
              have hlen123 : y3.vals.length = st.ymd.vals.length + 3 := by
                rw [hv3, hv2, hv1]
                simp
              rcases hinv with hC | hA | hB | hD
              · left; omega
              · right; left
                exact StA_carry hwf2 (StA_carry hwf1 (StA_carry hwf hA hv1 hl1) hv2 hl2) hv3 hl3
              · right; right; right
                dsimp only
                omega
              · right; right; right
                dsimp only
                omega
      · split at h
        -- ### separated numeric date (token [-/] ...)
        · rename_i hg6
          simp only [Bool.and_eq_true, Bool.or_eq_true, decide_eq_true_eq] at hg6
          obtain ⟨hi1, hsep⟩ := hg6
          have hsep_tok : tokAt l (i + 1) = ['-'] ∨ tokAt l (i + 1) = ['/'] := by
            rcases hsep with h' | h'
            · exact Or.inl (eq_of_beq h')
            · exact Or.inr (eq_of_beq h')
          have hp_ne_i1 : p ≠ i + 1 := by
            intro he
            have h1 : tokAt l (i + 1) = tp := by rw [← he, htp]
            rcases hsep_tok with h' | h' <;> rw [h1] at h' <;> rw [h'] at hlen4 <;>
              simp at hlen4
          split at h
          · exact absurd h (by simp)
          · rename_i y1 happ1
            obtain ⟨hv1, hl1⟩ := appendStr_spec happ1
            have hwf1 := ymdWF_step hwf hv1 hl1
            -- creation of the Y member if the current token is the explicit year
            have hcreate1 : i = p → StA v y1 := by
              intro he
              rw [he, htp] at happ1
              obtain ⟨hv', hy', -, -⟩ := appendStr_forceY (by omega) happ1
              rw [hval] at hv'
              exact StA_create hv' hy'
            split at h
            · rename_i hg6b
              simp only [Bool.and_eq_true, decide_eq_true_eq] at hg6b
              split at h
              · exact absurd h (by simp)
              · rename_i y2 heq2
                -- second member: digit token or month word at i+2
                have hspec2 : y2.vals.length = y1.vals.length + 1 ∧ ymdWF y2 ∧
                    (StA v y1 → StA v y2) ∧ (i + 2 = p → StA v y2) := by
                  by_cases hnum2 : isNumTok (tokAt l (i + 2)) = true
                  · rw [if_pos hnum2] at heq2
                    obtain ⟨hv2, hl2⟩ := appendStr_spec heq2
                    refine ⟨by rw [hv2]; simp, ymdWF_step hwf1 hv2 hl2,
                      fun hA => StA_carry hwf1 hA hv2 hl2, fun he => ?_⟩
                    rw [← he] at htp
                    rw [htp] at heq2
                    obtain ⟨hv', hy', -, -⟩ := appendStr_forceY (by omega) heq2
                    rw [hval] at hv'
                    exact StA_create hv' hy'
                  · rw [if_neg hnum2] at heq2
                    have hne2 : i + 2 ≠ p := fun he => by
                      rw [← he] at htp
                      rw [htp] at hnum2
                      exact hnum2 hnumtp
                    split at heq2
                    · rename_i m hmw
                      obtain ⟨hv2, hl2⟩ := appendVal_spec heq2
                      exact ⟨by rw [hv2]; simp, ymdWF_step hwf1 hv2 hl2,
                        fun hA => StA_carry hwf1 hA hv2 hl2,
                        fun he => absurd he.symm (fun h' => hne2 h'.symm)⟩
                    · exact absurd heq2 (by simp)
                obtain ⟨hlen2, hwf2, hcarry2, hcreate2⟩ := hspec2
                split at h
                · rename_i hg6c
                  simp only [Bool.and_eq_true, decide_eq_true_eq] at hg6c
                  have hp_ne_i3 : p ≠ i + 3 := by
                    intro he
                    have h1 : tokAt l (i + 3) = tp := by rw [← he, htp]
                    have h2 := eq_of_beq hg6c.2
                    rw [h1] at h2
                    rcases hsep_tok with h' | h' <;> rw [h'] at h2 <;> rw [h2] at hlen4 <;>
                      simp at hlen4
                  split at h
                  · exact absurd h (by simp)
                  · rename_i t4 hget4
                    have htok4 := tokAt_of_get? hget4
                    split at h
                    · exact absurd h (by simp)
                    · rename_i y3 heq3
                      have hspec3 : y3.vals.length = y2.vals.length + 1 ∧ ymdWF y3 ∧
                          (StA v y2 → StA v y3) ∧ (i + 4 = p → StA v y3) := by
                        split at heq3
                        · rename_i m hmw4
                          obtain ⟨hv3, hl3⟩ := appendVal_spec heq3
                          refine ⟨by rw [hv3]; simp, ymdWF_step hwf2 hv3 hl3,
                            fun hA => StA_carry hwf2 hA hv3 hl3, fun he => ?_⟩
                          rw [he, htp] at htok4
                          rw [← htok4] at hmw4
                          exact absurd hmw4 (by rw [monthWordVal_num hnumtp]; simp)
                        · obtain ⟨hv3, hl3⟩ := appendStr_spec heq3
                          refine ⟨by rw [hv3]; simp, ymdWF_step hwf2 hv3 hl3,
                            fun hA => StA_carry hwf2 hA hv3 hl3, fun he => ?_⟩
                          rw [he, htp] at htok4
                          rw [← htok4] at heq3
                          obtain ⟨hv', hy', -, -⟩ := appendStr_forceY (by omega) heq3
                          rw [hval] at hv'
                          exact StA_create hv' hy'
                      obtain ⟨hlen3x, hwf3, hcarry3, hcreate3⟩ := hspec3
                      rw [Option.some.injEq, Prod.mk.injEq] at h
                      obtain ⟨rfl, rfl⟩ := h
                      refine ⟨hwf3, ?_⟩
                      have hlen1 : y1.vals.length = st.ymd.vals.length + 1 := by
                        rw [hv1]; simp
                      rcases hinv with hC | hA | hB | hD
                      · by_cases hip : i = p
                        · right; left
                          exact hcarry3 (hcarry2 (hcreate1 hip))
                        · by_cases hip2 : i + 2 = p
                          · right; left
                            exact hcarry3 (hcreate2 hip2)
                          · by_cases hip4 : i + 4 = p
                            · right; left
                              exact hcreate3 hip4
                            · left
                              omega
                      · right; left
                        exact hcarry3 (hcarry2 (StA_carry hwf hA hv1 hl1))
                      · right; right; right
                        dsimp only
                        omega
                      · right; right; right
                        dsimp only
                        omega
                · rw [Option.some.injEq, Prod.mk.injEq] at h
                  obtain ⟨rfl, rfl⟩ := h
                  refine ⟨hwf2, ?_⟩
                  have hlen1 : y1.vals.length = st.ymd.vals.length + 1 := by
                    rw [hv1]; simp
                  rcases hinv with hC | hA | hB | hD
                  · by_cases hip : i = p
                    · right; left
                      exact hcarry2 (hcreate1 hip)
                    · by_cases hip2 : i + 2 = p
                      · right; left
                        exact hcreate2 hip2
                      · left
                        omega
                  · right; left
                    exact hcarry2 (StA_carry hwf hA hv1 hl1)
                  · right; right; right
                    dsimp only
                    omega
                  · right; right; right
                    dsimp only
                    omega
            · rw [Option.some.injEq, Prod.mk.injEq] at h
              obtain ⟨rfl, rfl⟩ := h
              refine ⟨hwf1, ?_⟩
              have hlen1 : y1.vals.length = st.ymd.vals.length + 1 := by
                rw [hv1]; simp
              rcases hinv with hC | hA | hB | hD
              · by_cases hip : i = p
                · right; left
                  exact hcreate1 hip
                · left
                  omega
              · right; left
                exact StA_carry hwf hA hv1 hl1
              · right; right; right
                dsimp only
                omega
              · right; right; right
                dsimp only
                omega
        · split at h
          -- ### last token or jump token follows: plain `_ymd.append`
          · rename_i hg7
            simp only [Bool.or_eq_true, decide_eq_true_eq] at hg7
            split at h
            · exact absurd h (by simp)
            · rename_i y1 happ1
              obtain ⟨hv1, hl1⟩ := appendVal_spec happ1
              have hwf1 := ymdWF_step hwf hv1 hl1
              rw [Option.some.injEq, Prod.mk.injEq] at h
              obtain ⟨rfl, rfl⟩ := h
              refine ⟨hwf1, ?_⟩
              have hlen1 : y1.vals.length = st.ymd.vals.length + 1 := by
                rw [hv1]; simp
              rcases hinv with hC | hA | hB | hD
              · by_cases hip : i = p
                · right; left
                  rw [hip, htp, hval] at happ1
                  obtain ⟨hv', hy', -, -⟩ := appendVal_forceY h100 happ1
                  exact StA_create hv' hy'
                · by_cases hip1 : i + 1 = p
                  · exfalso
                    rcases hg7 with h' | h'
                    · omega
                    · rw [← hip1] at htp
                      rw [htp] at h'
                      have := isJumpTok_length h'
                      omega
                  · left
                    omega
              · right; left
                exact StA_carry hwf hA hv1 hl1
              · right; right; right
                dsimp only
                omega
              · right; right; right
                dsimp only
                omega
          · split at h
            -- ### `could_be_day`: append as a day candidate
            · rename_i hg9
              have hip : i ≠ p := by
                intro he
                rw [he, htp, hval] at hg9
                rw [couldBeDay_gt100 h100] at hg9
                exact absurd hg9 (by simp)
              split at h
              · exact absurd h (by simp)
              · rename_i y1 happ1
                obtain ⟨hv1, hl1⟩ := appendVal_spec happ1
                have hwf1 := ymdWF_step hwf hv1 hl1
                rw [Option.some.injEq, Prod.mk.injEq] at h
                obtain ⟨rfl, rfl⟩ := h
                refine ⟨hwf1, ?_⟩
                have hlen1 : y1.vals.length = st.ymd.vals.length + 1 := by
                  rw [hv1]; simp
                rcases hinv with hC | hA | hB | hD
                · left
                  omega
                · right; left
                  exact StA_carry hwf hA hv1 hl1
                · right; right; right
                  dsimp only
                  omega
                · right; right; right
                  dsimp only
                  omega
            · exact absurd h (by simp)

set_option maxHeartbeats 4000000 in
/-- Invariant preservation through the `_parse` token loop: an accepted
run ends with the explicit year `Y`-labelled in `_ymd`, or with more than
three `_ymd` members. -/
theorem ploop_inv {l : List (List Char)} {n p v : Nat} {tp : List Char} (cy : Nat)
    (hclean : cleanToks l)
    (hln : l.length = n + 2)
    (hpn : p < n) (htp : tokAt l p = tp)
    (hlen4 : tp.length = 4) (hnumtp : isNumTok tp = true) (hval : natOfDigits tp = v)
    (h100 : 100 < v)
    (hyd4 : (tokAt l (n + 1)).length = 4)
    (hydnum : isNumTok (tokAt l (n + 1)) = true) :
    ∀ (fuel : Nat) {i : Nat} {st stF : PSt}, ymdWF st.ymd → c7Inv n p v i st →
      ploop cy l fuel i st = some stF →
      ymdWF stF.ymd ∧ (StA v stF.ymd ∨ 3 < stF.ymd.vals.length) := by
  intro fuel
  induction fuel with
  | zero =>
    intro i st stF hwf hinv h
    exact absurd h (by simp [ploop])
  | succ fuel ih =>
    intro i st stF hwf hinv h
    simp only [ploop, (hclean i).2.1] at h
    split at h
    -- loop exit
    · rename_i hle
      obtain rfl := Option.some.inj h
      refine ⟨hwf, ?_⟩
      rcases hinv with hC | hA | hB | hD
      · omega
      · left; exact hA
      · omega
      · right; exact hD
    · rename_i hgt
      split at h
      -- numeric token
      · rename_i hnum
        split at h
        · exact absurd h (by simp)
        · rename_i i2 st2 heq
          obtain ⟨hwf2, hinv2⟩ := numTok_inv hclean hln hpn htp hlen4 hnumtp hval h100
            hyd4 hwf hinv (by omega) heq
          exact ih hwf2 hinv2 h
      · rename_i hnum
        split at h
        -- inf/nan token: rejected
        · exact absurd h (by simp)
        · split at h
          -- weekday token: rejected
          · exact absurd h (by simp)
          · -- month word?
            split at h
            · rename_i m hmw
              have hip : i ≠ p := fun he => hnum (by rw [he, htp]; exact hnumtp)
              split at h
              · exact absurd h (by simp)
              · rename_i y1 happ1
                obtain ⟨hv1, hl1⟩ := appendVal_spec happ1
                have hwf1 := ymdWF_step hwf hv1 hl1
                have hlen1 : y1.vals.length = st.ymd.vals.length + 1 := by
                  rw [hv1]; simp
                split at h
                -- Jan-01[-99]
                · rename_i hgsep
                  simp only [Bool.and_eq_true, Bool.or_eq_true, decide_eq_true_eq] at hgsep
                  obtain ⟨hi1, hsep⟩ := hgsep
                  have hsep_tok : tokAt l (i + 1) = ['-'] ∨ tokAt l (i + 1) = ['/'] := by
                    rcases hsep with h' | h'
                    · exact Or.inl (eq_of_beq h')
                    · exact Or.inr (eq_of_beq h')
                  have hp_ne_i1 : p ≠ i + 1 := by
                    intro he
                    have h1 : tokAt l (i + 1) = tp := by rw [← he, htp]
                    rcases hsep_tok with h' | h' <;> rw [h1] at h' <;> rw [h'] at hlen4 <;>
                      simp at hlen4
                  split at h
                  · exact absurd h (by simp)
                  · rename_i t2 hget2
                    have htok2 := tokAt_of_get? hget2
                    split at h
                    · exact absurd h (by simp)
                    · rename_i y2 happ2
                      obtain ⟨hv2, hl2⟩ := appendStr_spec happ2
                      have hwf2 := ymdWF_step hwf1 hv2 hl2
                      have hlen2 : y2.vals.length = y1.vals.length + 1 := by
                        rw [hv2]; simp
                      have hcreate2 : i + 2 = p → StA v y2 := by
                        intro he
                        rw [he, htp] at htok2
                        rw [← htok2] at happ2
                        obtain ⟨hv', hy', -, -⟩ := appendStr_forceY (by omega) happ2
                        rw [hval] at hv'
                        exact StA_create hv' hy'
                      split at h
                      · rename_i hgsep2
                        simp only [Bool.and_eq_true, decide_eq_true_eq] at hgsep2
                        have hp_ne_i3 : p ≠ i + 3 := by
                          intro he
                          have h1 : tokAt l (i + 3) = tp := by rw [← he, htp]
                          have h2 := eq_of_beq hgsep2.2
                          rw [h1] at h2
                          rcases hsep_tok with h' | h' <;> rw [h'] at h2 <;>
                            rw [h2] at hlen4 <;> simp at hlen4
                        split at h
                        · exact absurd h (by simp)
                        · rename_i t4 hget4
                          have htok4 := tokAt_of_get? hget4
                          split at h
                          · exact absurd h (by simp)
                          · rename_i y3 happ3
                            obtain ⟨hv3, hl3⟩ := appendStr_spec happ3
                            have hwf3 := ymdWF_step hwf2 hv3 hl3
                            have hlen3 : y3.vals.length = y2.vals.length + 1 := by
                              rw [hv3]; simp
                            have hcreate3 : i + 4 = p → StA v y3 := by
                              intro he
                              rw [he, htp] at htok4
                              rw [← htok4] at happ3
                              obtain ⟨hv', hy', -, -⟩ := appendStr_forceY (by omega) happ3
                              rw [hval] at hv'
                              exact StA_create hv' hy'
                            refine ih hwf3 ?_ h
                            rcases hinv with hC | hA | hB | hD
                            · by_cases hip2 : i + 2 = p
                              · right; left
                                exact StA_carry hwf2 (hcreate2 hip2) hv3 hl3
                              · by_cases hip4 : i + 4 = p
                                · right; left
                                  exact hcreate3 hip4
                                · left
                                  omega
                            · right; left
                              exact StA_carry hwf2
                                (StA_carry hwf1 (StA_carry hwf hA hv1 hl1) hv2 hl2) hv3 hl3
                            · right; right; right
                              dsimp only
                              omega
                            · right; right; right
                              dsimp only
                              omega
                      · refine ih hwf2 ?_ h
                        rcases hinv with hC | hA | hB | hD
                        · by_cases hip2 : i + 2 = p
                          · right; left
                            exact hcreate2 hip2
                          · left
                            omega
                        · right; left
                          exact StA_carry hwf1 (StA_carry hwf hA hv1 hl1) hv2 hl2
                        · right; right; right
                          dsimp only
                          omega
                        · right; right; right
                          dsimp only
                          omega
                · split at h
                  -- Jan of 01
                  · rename_i hgpert
                    simp only [Bool.and_eq_true, decide_eq_true_eq] at hgpert
                    have hsp1 : tokAt l (i + 1) = [' '] := eq_of_beq hgpert.1.1.2
                    have hsp3 : tokAt l (i + 3) = [' '] := eq_of_beq hgpert.1.2
                    have hpert : isPertainTok (tokAt l (i + 2)) = true := hgpert.2
                    have hp_ne_i1 : p ≠ i + 1 := by
                      intro he
                      rw [← he, htp] at hsp1
                      rw [hsp1] at hlen4
                      simp at hlen4
                    have hp_ne_i3 : p ≠ i + 3 := by
                      intro he
                      rw [← he, htp] at hsp3
                      rw [hsp3] at hlen4
                      simp at hlen4
                    have hp_ne_i2 : p ≠ i + 2 := by
                      intro he
                      rw [← he, htp] at hpert
                      rw [isPertainTok_num hnumtp] at hpert
                      exact absurd hpert (by simp)
                    split at h
                    -- numeric year token after "of"
                    · rename_i hnum4
                      split at h
                      · exact absurd h (by simp)
                      · rename_i y2 happ2
                        obtain ⟨hv2, hl2⟩ := appendStr_spec happ2
                        have hwf2 := ymdWF_step hwf1 hv2 hl2
                        have hlen2 : y2.vals.length = y1.vals.length + 1 := by
                          rw [hv2]; simp
                        have hcreate2 : i + 4 = p → StA v y2 := by
                          intro he
                          have htok4 : tokAt l (i + 4) = tp := by rw [he, htp]
                          rw [htok4, hval, convertyear_gt100 cy false h100] at happ2
                          obtain ⟨hv', hy', -, -⟩ :=
                            appendStr_forceY (by have := natDigits_length_ge3 (show 100 ≤ v by omega); omega) happ2
                          rw [natOfDigits_natDigits] at hv'
                          exact StA_create hv' hy'
                        refine ih hwf2 ?_ h
                        rcases hinv with hC | hA | hB | hD
                        · by_cases hip4 : i + 4 = p
                          · right; left
                            exact hcreate2 hip4
                          · left
                            omega
                        · right; left
                          exact StA_carry hwf1 (StA_carry hwf hA hv1 hl1) hv2 hl2
                        · right; right; right
                          dsimp only
                          omega
                        · right; right; right
                          dsimp only
                          omega
                    · rename_i hnum4
                      have hp_ne_i4 : p ≠ i + 4 := by
                        intro he
                        exact hnum4 (by rw [← he, htp]; exact hnumtp)
                      refine ih hwf1 ?_ h
                      rcases hinv with hC | hA | hB | hD
                      · left
                        omega
                      · right; left
                        exact StA_carry hwf hA hv1 hl1
                      · right; right; right
                        dsimp only
                        omega
                      · right; right; right
                        dsimp only
                        omega
                  -- plain month word
                  · refine ih hwf1 ?_ h
                    rcases hinv with hC | hA | hB | hD
                    · left
                      omega
                    · right; left
                      exact StA_carry hwf hA hv1 hl1
                    · right; right; right
                      dsimp only
                      omega
                    · right; right; right
                      dsimp only
                      omega
            · -- not a month word; am/pm is impossible, tz names and offsets reject
              split at h
              · exact absurd h (by simp)
              · split at h
                · exact absurd h (by simp)
                · split at h
                  -- jump token: skip
                  · rename_i hjump
                    have hip : i ≠ p := fun he => hnum (by rw [he, htp]; exact hnumtp)
                    have hin1 : i ≠ n + 1 := fun he => hnum (by rw [he]; exact hydnum)
                    refine ih hwf ?_ h
                    rcases hinv with hC | hA | hB | hD
                    · left
                      omega
                    · right; left
                      exact hA
                    · right; right; left
                      exact ⟨hB.1, hB.2.1, by omega⟩
                    · right; right; right
                      exact hD
                  · exact absurd h (by simp)

/-! # Theorems -/

/-- **C10**: the structured extractor returns the parsed JSON value
verbatim without validating its shape, and the sync loop catches only the
calendar service's error type; on the oracle response `["a"]` (valid JSON,
but an array of strings rather than of objects) the sync operation raises
an uncaught `AttributeError` to its caller instead of failing soft. -/
theorem c10_shape_unvalidated_raises :
    json_loads ['[', quoteCh, 'a', quoteCh, ']'] = some (Json.arr [Json.str ['a']]) ∧
    extract_events_with_ollama (.ok ['[', quoteCh, 'a', quoteCh, ']']) =
      Json.arr [Json.str ['a']] ∧
    (add_events_to_calendar (Json.arr [Json.str ['a']]) ⟨2025, 3, 7⟩
        (fun _ => true)).retval = .error .attributeError :=
  ⟨rfl, rfl, rfl⟩

/-- **C3** (counterexample): the claim asserts that an empty raw date
string fails resolution, so that no calendar event is created.  In fact
`date_parser.parse(" 2025")` succeeds — the bare reference year parses as
a year and the month/day come from the default date — so a candidate whose
oracle object lacks the `date` field entirely produces a calendar event
dated "today". -/
theorem c3_counterexample :
    resolve_date ⟨2025, 3, 7⟩ [] = some ⟨2025, 3, 7, 0, 0, 0⟩ ∧
    (syncCandidates [⟨some ("A".data), none⟩] ⟨2025, 3, 7⟩ (fun _ => true)).retval = .ok 1 ∧
    (syncCandidates [⟨some ("A".data), none⟩] ⟨2025, 3, 7⟩ (fun _ => true)).inserted.length = 1 :=
  ⟨rfl, rfl, rfl⟩

/-! ### The bare-reference-year parse (C3 amended) -/

theorem numTok_bare_year {ds : List Char} (y : Nat) (hval : natOfDigits ds = y)
    (hlen : ds.length = 4) (hy : 100 < y) :
    numTok [[' '], ds] 1 {} = some (2,
      { ymd := { vals := [y], century := true, mstridx := none, dstridx := none,
                 ystridx := some 0 }, res := {} }) := by
  have ht : tokAt [[' '], ds] 1 = ds := rfl
  simp only [numTok, ht, hlen, hval]
  norm_num
  rw [show findHmsIdx [[' '], ds] 1 true = none from rfl]
  have happ : ({ vals := [], century := false, mstridx := none, dstridx := none, ystridx := none } : YMD).appendVal y none = some { vals := [y], century := true, mstridx := none, dstridx := none, ystridx := some 0 } := by
    rw [YMD.appendVal, if_pos hy]
    rfl
  rw [happ]

theorem ploop_space_year (cy : Nat) {ds : List Char} (y : Nat)
    (hval : natOfDigits ds = y) (hlen : ds.length = 4) (hnum : isNumTok ds = true)
    (hy : 100 < y) :
    ploop cy [[' '], ds] 3 0 {} =
      some { ymd := { vals := [y], century := true, mstridx := none, dstridx := none, ystridx := some 0 }, res := {} } := by
  have s1 : ploop cy [[' '], ds] 3 0 {} = ploop cy [[' '], ds] 2 1 {} := rfl
  rw [s1]
  have ht : tokAt [[' '], ds] 1 = ds := rfl
  rw [ploop]
  rw [if_neg (show ¬ [[' '], ds].length ≤ 1 by simp)]
  simp only [ht, hnum]
  rw [if_pos trivial]
  rw [numTok_bare_year y hval hlen hy]
  rfl

/-- Parsing the string `" <year>"` (empty raw date plus the appended
reference year) yields a bare year. -/
theorem duParseRes_empty (cy y : Nat) (hy1 : 1000 ≤ y) (hy2 : y ≤ 9999) :
    duParseRes cy ([] ++ ' ' :: natDigits y) =
      some { year := some y, month := none, day := none, hour := none, minute := none, second := none, usec := none, ampm := none } := by
  unfold duParseRes
  rw [show ([] : List Char) ++ ' ' :: natDigits y = ' ' :: natDigits y from rfl]
  rw [tokenize_space_digits (natDigits_ne_nil y) (natDigits_all_digit y)]
  dsimp only
  rw [show ([[' '], natDigits y] : List (List Char)).length + 1 = 3 from rfl]
  rw [ploop_space_year cy y (natOfDigits_natDigits y) (natDigits_length_four hy1 hy2)
    (isNumTok_natDigits y) (by omega)]
  dsimp only
  rw [show resolveYmd { vals := [y], century := true, mstridx := none, dstridx := none, ystridx := some 0 } = some (some y, none, none) from by rw [resolveYmd]; rfl]
  simp only [Option.map_some']
  rw [show convertyear cy y true = y from by rw [convertyear]; simp]

/-- **C3** (amended): an empty raw date string (including one from an
oracle object with no `date` field) does not fail resolution — the parse
of the bare reference year succeeds, the month and day fall back to the
default date, and the candidate resolves to "today", so a calendar event
IS created for it (dated the day of the sync). -/
theorem c3_amended_empty_date_resolves_to_today (today : Date3)
    (hv : validDate3 today = true) (hy : 1000 ≤ today.year) :
    resolve_date today [] = some ⟨today.year, today.month, today.day, 0, 0, 0⟩ := by
  obtain ⟨y, m, d⟩ := today
  simp only [validDate3, Bool.and_eq_true, decide_eq_true_eq] at hv
  simp only at hy
  obtain ⟨⟨⟨⟨⟨h1, h2⟩, h3⟩, h4⟩, h5⟩, h6⟩ := hv
  show duParse y ⟨y, m, d⟩ ([] ++ ' ' :: natDigits y) = _
  unfold duParse
  rw [duParseRes_empty y y hy h2]
  show buildNaive ⟨y, m, d⟩ _ = _
  unfold buildNaive
  rw [if_neg (show ¬ resCount { year := some y, month := none, day := none, hour := none, minute := none, second := none, usec := none, ampm := none } = 0 from by rw [show resCount { year := some y, month := none, day := none, hour := none, minute := none, second := none, usec := none, ampm := none } = 1 from rfl]; omega)]
  simp only [Option.getD_some, Option.getD_none]
  cases hdim : daysInMonth y m with
  | none =>
    rw [hdim] at h6
    simp at h6
    omega
  | some dim =>
    rw [hdim] at h6
    simp only [Option.getD_some] at h6
    dsimp only
    rw [if_neg (show ¬ dim < d from by omega)]
    rw [if_pos (show validDateTime ⟨y, m, d, 0, 0, 0⟩ = true from by
      simp [validDateTime, hdim]
      omega)]

/-- Witness for **C3** (amended) at the concrete date 2025-03-07. -/
theorem c3_amended_witness :
    resolve_date ⟨2025, 3, 7⟩ [] = some ⟨2025, 3, 7, 0, 0, 0⟩ :=
  c3_amended_empty_date_resolves_to_today ⟨2025, 3, 7⟩ (by decide) (by decide)

/-- **C4** (counterexample): the claim asserts that date resolution is a
function of the raw string and the reference year alone.  The accepted raw
string `"September"` refutes this: with the same reference year 2025 but
the clock at March 7 versus November 28, the resolved dates differ (the
day of month comes from the default date, i.e. from implicit clock
state). -/
theorem c4_counterexample :
    resolve_date ⟨2025, 3, 7⟩ ("September".data) = some ⟨2025, 9, 7, 0, 0, 0⟩ ∧
    resolve_date ⟨2025, 11, 28⟩ ("September".data) = some ⟨2025, 9, 28, 0, 0, 0⟩ ∧
    (⟨2025, 3, 7⟩ : Date3).year = (⟨2025, 11, 28⟩ : Date3).year ∧
    resolve_date ⟨2025, 3, 7⟩ ("September".data) ≠
      resolve_date ⟨2025, 11, 28⟩ ("September".data) :=
  ⟨rfl, rfl, rfl, by decide⟩

/-- **C4** (amended): resolution is a pure function of the raw string and
the full clock date (the string-processing phase `duParseRes` depends only
on the raw string and the reference year); the stated determinism — same
raw string and same reference year imply the same `CalendarDate` — holds
whenever the parse itself determines the month and the day, and can fail
only through the default-date fallback for underdetermined strings
(`c4_counterexample`). -/
theorem c4_amended_determinism (raw : List Char) (t1 t2 : Date3)
    (hy : t1.year = t2.year) (r : PRes)
    (hr : duParseRes t1.year (raw ++ [' '] ++ natDigits t1.year) = some r)
    (hmonth : r.month.isSome = true) (hday : r.day.isSome = true) :
    resolve_date t1 raw = resolve_date t2 raw := by
  obtain ⟨mo, hmo⟩ := Option.isSome_iff_exists.mp hmonth
  obtain ⟨dy, hdy⟩ := Option.isSome_iff_exists.mp hday
  unfold resolve_date duParse
  rw [← hy, hr]
  have hbuild : buildNaive t1 r = buildNaive t2 r := by
    unfold buildNaive
    rw [hmo, hdy]
    simp only [Option.getD_some, hy]
  exact hbuild

/-- Witness for **C4** (amended): `"Sept 5"` determines month and day, so
March 7 and November 28 of 2025 resolve it identically. -/
theorem c4_amended_witness :
    resolve_date ⟨2025, 3, 7⟩ ("Sept 5".data) =
      resolve_date ⟨2025, 11, 28⟩ ("Sept 5".data) :=
  c4_amended_determinism ("Sept 5".data) ⟨2025, 3, 7⟩ ⟨2025, 11, 28⟩ rfl
    { year := some 2025, month := some 9, day := some 5, hour := none, minute := none, second := none, usec := none, ampm := none }
    rfl rfl rfl

/-- **C7** (counterexample): the claim asserts that for every accepted raw
string containing an explicit 4-digit year, the resolved year equals that
year.  The accepted raw string `"5s2024"` refutes it: the `s` unit label
makes the parser treat `5` as seconds, the subsequent backward unit-label
lookup silently swallows the `2024` token, and the resolved year is the
reference year 2025, not 2024. -/
theorem c7_counterexample :
    explicitYearTokens ("5s2024".data) = [2024] ∧
    resolve_date ⟨2025, 3, 7⟩ ("5s2024".data) = some ⟨2025, 3, 7, 0, 0, 5⟩ ∧
    (2025 : Nat) ≠ 2024 :=
  ⟨rfl, rfl, by decide⟩

/-- **C5** (counterexample): the claim asserts that wrapping a valid JSON
array in arbitrary prose never changes the extraction result.  Prose
containing its own brackets refutes it: for `"see [2] and [5]"` the greedy
`\[.*\]` span is `"[2] and [5]"`, which is not JSON, so extraction returns
the empty list, while the bare array `"[5]"` extracts to `[5]`. -/
theorem c5_counterexample :
    json_loads ("[5]".data) = some (Json.arr [Json.num ['5']]) ∧
    extract_events_with_ollama (.ok ("see [2] and [5]".data)) = Json.arr [] ∧
    extract_events_with_ollama (.ok ("[5]".data)) = Json.arr [Json.num ['5']] ∧
    Json.arr [] ≠ Json.arr [Json.num ['5']] :=
  ⟨rfl, rfl, rfl, by simp⟩

/-- **C1** (counterexample): the claim asserts that after `k` successful
inserts a calendar-service failure makes the sync return the partial
outcome with `succeeded = k`.  In fact the `except HttpError` handler
returns `0`: with two resolvable candidates and the second insert call
failing, one event was inserted (`k = 1`, two insert calls made) but the
function returns 0, discarding the partial count. -/
theorem c1_counterexample :
    (syncCandidates [⟨some ("A".data), some ("September 15".data)⟩,
        ⟨some ("B".data), some ("Oct 7".data)⟩] ⟨2025, 3, 7⟩
        (fun k => !(k == 1))).retval = .ok 0 ∧
    (syncCandidates [⟨some ("A".data), some ("September 15".data)⟩,
        ⟨some ("B".data), some ("Oct 7".data)⟩] ⟨2025, 3, 7⟩
        (fun k => !(k == 1))).inserted.length = 2 ∧
    (Except.ok 0 : Except PyErr Nat) ≠ Except.ok 1 :=
  ⟨rfl, rfl, by simp⟩

/-- **C6**: the structured extractor never raises to its caller (it is a
total function of the oracle behaviour), and on any oracle error or any
JSON-parse failure after repair it returns the empty sequence; `json.loads`
is all-or-nothing, so no partially applied malformed result exists. -/
theorem c6_extractor_fails_soft (o : Except Unit (List Char)) :
    (∀ e, o = .error e → extract_events_with_ollama o = Json.arr []) ∧
    (∀ s, o = .ok s →
      json_loads ((bracketSpan (pyStrip s)).getD (pyStrip s)) = none →
      extract_events_with_ollama o = Json.arr []) := by
  constructor
  · rintro e rfl
    rfl
  · rintro s rfl h
    simp only [extract_events_with_ollama, h]

/-- Witness for **C6** at concrete oracle behaviours: an oracle exception,
and an oracle response (`"oops"`) that fails to parse. -/
theorem c6_witness :
    extract_events_with_ollama (.error ()) = Json.arr [] ∧
    extract_events_with_ollama (.ok ("oops".data)) = Json.arr [] :=
  ⟨(c6_extractor_fails_soft (.error ())).1 () rfl,
   (c6_extractor_fails_soft (.ok ("oops".data))).2 ("oops".data) rfl rfl⟩

/-! ### Sync-loop bookkeeping lemmas -/

theorem jsonGet_event (c : Candidate) :
    jsonGet c.toJson ("event".data) (Json.str ("Untitled Event".data)) =
      .ok (Json.str (c.event.getD ("Untitled Event".data))) := by
  obtain ⟨e, d⟩ := c
  cases e <;> cases d <;> rfl

theorem jsonGet_date (c : Candidate) :
    jsonGet c.toJson ("date".data) (Json.str []) = .ok (Json.str c.dateStr) := by
  obtain ⟨e, d⟩ := c
  cases e <;> cases d <;> rfl

/-- One step of the sync loop on a candidate-shaped item. -/
theorem syncLoop_cand_cons (today : Date3) (insertOk : Nat → Bool) (c : Candidate)
    (cs : List Candidate) (added : Nat) (flog : List (List Char)) (ins : List EventBody) :
    syncLoop today insertOk (c.toJson :: cs.map Candidate.toJson) added flog ins =
      match resolve_date today c.dateStr with
      | none => syncLoop today insertOk (cs.map Candidate.toJson) added (flog ++ [c.dateStr]) ins
      | some dt =>
        if insertOk ins.length then
          syncLoop today insertOk (cs.map Candidate.toJson) (added + 1) flog
            (ins ++ [mkEventBody (Json.str (c.event.getD ("Untitled Event".data))) dt])
        else ⟨.ok 0, flog,
          ins ++ [mkEventBody (Json.str (c.event.getD ("Untitled Event".data))) dt]⟩ := by
  rw [syncLoop, jsonGet_event, jsonGet_date]
  rfl

/-- Number of candidates of a batch whose date resolves. -/
def resolvableCount (today : Date3) (cs : List Candidate) : Nat :=
  (cs.filter (fun c => !unresolvable today c)).length

theorem syncLoop_all_ok (today : Date3) (insertOk : Nat → Bool)
    (hins : ∀ k, insertOk k = true) :
    ∀ (cs : List Candidate) (added : Nat) (flog : List (List Char)) (ins : List EventBody),
      (syncLoop today insertOk (cs.map Candidate.toJson) added flog ins).retval =
        .ok (added + resolvableCount today cs) ∧
      (syncLoop today insertOk (cs.map Candidate.toJson) added flog ins).failLog =
        flog ++ (cs.filter (unresolvable today)).map Candidate.dateStr := by
  intro cs
  induction cs with
  | nil => intro added flog ins; simp [syncLoop, resolvableCount]
  | cons c cs ih =>
    intro added flog ins
    rw [List.map_cons, syncLoop_cand_cons]
    cases hres : resolve_date today c.dateStr with
    | none =>
      have hu : unresolvable today c = true := by
        simp [unresolvable, hres]
      simp only [ih, resolvableCount, List.filter_cons, hu]
      simp
    | some dt =>
      have hu : unresolvable today c = false := by
        simp [unresolvable, hres]
      rw [hins ins.length]
      simp only [if_true, ih, resolvableCount, List.filter_cons, hu]
      constructor
      · simp [Nat.add_assoc, Nat.add_comm 1]
      · simp

/-- **C2**: for a batch of `N` candidates of which `M` fail date
resolution (and the calendar service accepting every insert), the sync
run records one failure entry per unresolvable candidate — its raw date
string, in batch order — continues past each of them, and returns with
`attempted = N` and `succeeded = N - M` (in particular
`succeeded ≤ N - M`). -/
theorem c2_sync_failure_accounting (cs : List Candidate) (today : Date3)
    (insertOk : Nat → Bool) (hins : ∀ k, insertOk k = true) :
    (syncCandidates cs today insertOk).retval =
      .ok (cs.length - (cs.filter (unresolvable today)).length) ∧
    (syncCandidates cs today insertOk).failLog =
      (cs.filter (unresolvable today)).map Candidate.dateStr ∧
    resolvableCount today cs ≤ cs.length - (cs.filter (unresolvable today)).length := by
  have h := syncLoop_all_ok today insertOk hins cs 0 [] []
  have hlen : resolvableCount today cs + (cs.filter (unresolvable today)).length
      = cs.length := by
    have := List.length_eq_length_filter_add (l := cs) (unresolvable today)
    unfold resolvableCount
    omega
  refine ⟨?_, ?_, ?_⟩
  · rw [show syncCandidates cs today insertOk =
        syncLoop today insertOk (cs.map Candidate.toJson) 0 [] [] from rfl, h.1]
    congr 1
    omega
  · rw [show syncCandidates cs today insertOk =
        syncLoop today insertOk (cs.map Candidate.toJson) 0 [] [] from rfl, h.2]
    simp
  · omega

/-- Witness for **C2**: a batch of three candidates, one unresolvable. -/
theorem c2_witness :
    (syncCandidates [⟨some ("A".data), some ("September 15".data)⟩,
        ⟨some ("B".data), some ("not a date".data)⟩,
        ⟨none, some ("Sept 5".data)⟩] ⟨2025, 3, 7⟩ (fun _ => true)).retval = .ok 2 ∧
    (syncCandidates [⟨some ("A".data), some ("September 15".data)⟩,
        ⟨some ("B".data), some ("not a date".data)⟩,
        ⟨none, some ("Sept 5".data)⟩] ⟨2025, 3, 7⟩ (fun _ => true)).failLog =
      [("not a date".data)] := by
  have h := c2_sync_failure_accounting
    [⟨some ("A".data), some ("September 15".data)⟩,
     ⟨some ("B".data), some ("not a date".data)⟩,
     ⟨none, some ("Sept 5".data)⟩] ⟨2025, 3, 7⟩ (fun _ => true) (fun _ => rfl)
  exact ⟨h.1, h.2.1⟩

theorem syncLoop_abort (today : Date3) (insertOk : Nat → Bool) (j : Nat)
    (hok : ∀ i, i < j → insertOk i = true) (hfail : insertOk j = false) :
    ∀ (cs : List Candidate) (added : Nat) (flog : List (List Char)) (ins : List EventBody),
      ins.length ≤ j → j < ins.length + resolvableCount today cs →
      (syncLoop today insertOk (cs.map Candidate.toJson) added flog ins).retval = .ok 0 ∧
      (syncLoop today insertOk (cs.map Candidate.toJson) added flog ins).inserted.length
        = j + 1 := by
  intro cs
  induction cs with
  | nil =>
    intro added flog ins h1 h2
    simp [resolvableCount] at h2
    omega
  | cons c cs ih =>
    intro added flog ins h1 h2
    rw [List.map_cons, syncLoop_cand_cons]
    cases hres : resolve_date today c.dateStr with
    | none =>
      have hu : unresolvable today c = true := by simp [unresolvable, hres]
      refine ih added (flog ++ [c.dateStr]) ins h1 ?_
      simpa [resolvableCount, List.filter_cons, hu] using h2
    | some dt =>
      have hu : unresolvable today c = false := by simp [unresolvable, hres]
      rcases Nat.lt_or_ge ins.length j with hlt | hge
      · rw [hok ins.length hlt]
        simp only [if_true]
        refine ih (added + 1) flog _ ?_ ?_
        · simpa using hlt
        · have : resolvableCount today (c :: cs) = resolvableCount today cs + 1 := by
            simp [resolvableCount, List.filter_cons, hu]
          simp only [List.length_append, List.length_cons, List.length_nil]
          omega
      · have hej : ins.length = j := Nat.le_antisymm h1 hge
        rw [hej, hfail]
        simp [hej]

/-- **C1** (amended): on a calendar-service error the sync aborts the
remaining batch — after `j` successful inserts a failing `j`-th call ends
the run with exactly `j + 1` insert calls made — but, the `except
HttpError` handler being outside the loop and returning `0`, the reported
succeeded count is 0, not the partial count `j`. -/
theorem c1_amended_abort_returns_zero (cs : List Candidate) (today : Date3)
    (insertOk : Nat → Bool) (j : Nat) (hok : ∀ i, i < j → insertOk i = true)
    (hfail : insertOk j = false) (hres : j < resolvableCount today cs) :
    (syncCandidates cs today insertOk).retval = .ok 0 ∧
    (syncCandidates cs today insertOk).inserted.length = j + 1 :=
  syncLoop_abort today insertOk j hok hfail cs 0 [] [] (Nat.zero_le j) (by simpa using hres)

/-- Witness for **C1**: two resolvable candidates, insert call 1 fails. -/
theorem c1_witness :
    (syncCandidates [⟨some ("A".data), some ("September 15".data)⟩,
        ⟨some ("B".data), some ("Oct 7".data)⟩] ⟨2025, 3, 7⟩
        (fun k => !(k == 1))).retval = .ok 0 ∧
    (syncCandidates [⟨some ("A".data), some ("September 15".data)⟩,
        ⟨some ("B".data), some ("Oct 7".data)⟩] ⟨2025, 3, 7⟩
        (fun k => !(k == 1))).inserted.length = 1 + 1 :=
  c1_amended_abort_returns_zero _ _ _ 1
    (by intro i hi; interval_cases i; rfl) rfl (by decide)

/-! ### The repair property (C5 amended) -/

theorem firstIdx_cons_self (c : Char) (l : List Char) : firstIdx c (c :: l) = some 0 := by
  simp [firstIdx]

theorem firstIdx_append_of_not_mem {c : Char} {xs : List Char} (ys : List Char)
    (h : c ∉ xs) : firstIdx c (xs ++ ys) = (firstIdx c ys).map (· + xs.length) := by
  induction xs with
  | nil => simp [Option.map_id_fun]
  | cons x xs ih =>
    have hx : ¬ x = c := fun he => h (he ▸ List.mem_cons_self x xs)
    have hm : c ∉ xs := fun hm2 => h (List.mem_cons_of_mem x hm2)
    rw [List.cons_append]
    show (if x = c then some 0 else (firstIdx c (xs ++ ys)).map (· + 1)) =
      (firstIdx c ys).map (· + (x :: xs).length)
    rw [if_neg hx, ih hm]
    cases firstIdx c ys with
    | none => rfl
    | some k => simp [Nat.add_assoc]

theorem dropWhile_append_of_stop {p : Char → Bool} {y : Char} (xs ys : List Char)
    (h : p y = false) :
    (xs ++ y :: ys).dropWhile p = xs.dropWhile p ++ y :: ys := by
  induction xs with
  | nil => simp [List.dropWhile_cons, h]
  | cons x xs ih =>
    by_cases hx : p x = true <;> simp [List.dropWhile_cons, hx, ih]

theorem mem_of_mem_dropWhile {p : Char → Bool} {x : Char} {l : List Char}
    (h : x ∈ l.dropWhile p) : x ∈ l :=
  (List.dropWhile_sublist p).mem h

/-- The strip-then-span computation on a response that wraps a bracketed
span `M` in bracket-free prose isolates exactly `M`. -/
theorem strip_span_of_wrapped (P M S : List Char) (hP : '[' ∉ P) (hS : ']' ∉ S)
    (hM1 : M.head? = some '[') (hM2 : M.getLast? = some ']') (hlen : 2 ≤ M.length) :
    bracketSpan (pyStrip (P ++ M ++ S)) = some M := by
  obtain ⟨M₁, rfl⟩ : ∃ M₁, M = '[' :: M₁ := by
    cases M with
    | nil => simp at hM1
    | cons a M₁ => exact ⟨M₁, by simpa using congrArg (List.cons · M₁) (by simpa using hM1)⟩
  obtain ⟨Mr, hMr⟩ : ∃ Mr, ('[' :: M₁).reverse = ']' :: Mr := by
    have hh : ('[' :: M₁).reverse.head? = some ']' := by
      rw [List.head?_reverse]; exact hM2
    cases hrev : ('[' :: M₁).reverse with
    | nil => rw [hrev] at hh; simp at hh
    | cons b Mr =>
      rw [hrev] at hh
      exact ⟨Mr, by simpa using congrArg (List.cons · Mr) (by simpa using hh)⟩
  have hMunrev : Mr.reverse ++ [']'] = '[' :: M₁ := by
    have := congrArg List.reverse hMr
    rw [List.reverse_reverse, List.reverse_cons] at this
    exact this.symm
  set P2 := P.dropWhile isSpaceCh with hP2
  have hP2mem : '[' ∉ P2 := fun hm => hP (mem_of_mem_dropWhile hm)
  set S2 := (S.reverse.dropWhile isSpaceCh).reverse with hS2
  have hS2revmem : ']' ∉ S2.reverse := by
    intro hm
    rw [hS2, List.reverse_reverse] at hm
    exact hS (List.mem_reverse.mp (mem_of_mem_dropWhile hm))
  have hS2mem : ']' ∉ S2 := fun hm => hS2revmem (List.mem_reverse.mpr hm)
  -- reversing past the wrapped span
  have erev : ∀ T : List Char,
      (P2 ++ '[' :: M₁ ++ T).reverse = T.reverse ++ ']' :: (Mr ++ P2.reverse) := by
    intro T
    rw [show P2 ++ '[' :: M₁ ++ T = (P2 ++ '[' :: M₁) ++ T by simp [List.append_assoc]]
    rw [List.reverse_append, List.reverse_append, hMr]
    simp [List.append_assoc]
  -- the strip
  have e1 : (P ++ '[' :: M₁ ++ S).dropWhile isSpaceCh = P2 ++ '[' :: M₁ ++ S := by
    have h := dropWhile_append_of_stop (p := isSpaceCh) P (M₁ ++ S) (y := '[') (by decide)
    simpa [List.append_assoc, hP2] using h
  have e3 : (S.reverse ++ ']' :: (Mr ++ P2.reverse)).dropWhile isSpaceCh =
      S.reverse.dropWhile isSpaceCh ++ ']' :: (Mr ++ P2.reverse) :=
    dropWhile_append_of_stop _ _ (by decide)
  have hstrip : pyStrip (P ++ '[' :: M₁ ++ S) = P2 ++ '[' :: M₁ ++ S2 := by
    unfold pyStrip
    rw [e1, erev S, e3, List.reverse_append, List.reverse_cons, List.reverse_append,
      List.reverse_reverse, ← hS2, ← hMunrev]
    simp [List.append_assoc]
  rw [hstrip]
  -- the span
  have hfirst : firstIdx '[' (P2 ++ '[' :: M₁ ++ S2) = some P2.length := by
    rw [List.append_assoc, firstIdx_append_of_not_mem _ hP2mem]
    rw [show firstIdx '[' ('[' :: M₁ ++ S2) = some 0 from firstIdx_cons_self '[' (M₁ ++ S2)]
    simp
  have hlast : firstIdx ']' ((P2 ++ '[' :: M₁ ++ S2).reverse) = some S2.length := by
    rw [erev S2, firstIdx_append_of_not_mem _ hS2revmem]
    rw [show firstIdx ']' (']' :: (Mr ++ P2.reverse)) = some 0 from
      firstIdx_cons_self ']' (Mr ++ P2.reverse)]
    simp
  unfold bracketSpan
  rw [hfirst, hlast]
  have hj : (P2 ++ '[' :: M₁ ++ S2).length - 1 - S2.length = P2.length + M₁.length := by
    simp only [List.length_append, List.length_cons]
    omega
  simp only [Option.map_some', hj]
  have hlt : P2.length < P2.length + M₁.length := by
    simp only [List.length_cons] at hlen
    omega
  rw [if_pos hlt]
  congr 1
  have hsplit : P2 ++ '[' :: M₁ ++ S2 = (P2 ++ '[' :: M₁) ++ S2 := by
    simp [List.append_assoc]
  have htake : P2.length + M₁.length + 1 = (P2 ++ '[' :: M₁).length := by
    simp only [List.length_append, List.length_cons]
    omega
  rw [hsplit, htake, List.take_left, List.drop_left]

/-- Same computation on the bare span. -/
theorem strip_span_of_bare (M : List Char) (hM1 : M.head? = some '[')
    (hM2 : M.getLast? = some ']') (hlen : 2 ≤ M.length) :
    bracketSpan (pyStrip M) = some M := by
  have h := strip_span_of_wrapped [] M [] (by simp) (by simp) hM1 hM2 hlen
  simpa using h

/-- **C5** (amended): if the prose before the array contains no `'['` and
the prose after it contains no `']'`, extraction of the wrapped response
equals extraction of the bare array (the repaired span is exactly the
array in both cases).  With brackets in the prose this fails
(`c5_counterexample`). -/
theorem c5_amended_repair (P M S : List Char) (hP : '[' ∉ P) (hS : ']' ∉ S)
    (hM1 : M.head? = some '[') (hM2 : M.getLast? = some ']') (hlen : 2 ≤ M.length) :
    extract_events_with_ollama (.ok (P ++ M ++ S)) =
      extract_events_with_ollama (.ok M) := by
  show (match json_loads ((bracketSpan (pyStrip (P ++ M ++ S))).getD
          (pyStrip (P ++ M ++ S))) with
        | some j => j
        | none => Json.arr []) =
       (match json_loads ((bracketSpan (pyStrip M)).getD (pyStrip M)) with
        | some j => j
        | none => Json.arr [])
  rw [strip_span_of_wrapped P M S hP hS hM1 hM2 hlen, strip_span_of_bare M hM1 hM2 hlen]
  rfl

/-- Witness for **C5** (amended): bracket-free prose around the valid
JSON array `[5]`. -/
theorem c5_witness :
    extract_events_with_ollama (.ok (("Here is the list: ".data) ++ ("[5]".data) ++
      (" Hope this helps!".data))) =
    extract_events_with_ollama (.ok ("[5]".data)) :=
  c5_amended_repair _ _ _ (by decide) (by decide) (by decide) (by decide) (by decide)

/-! ### Insert-request construction (C8) -/

theorem syncLoop_inserted_shape (today : Date3) (insertOk : Nat → Bool) :
    ∀ (cs : List Candidate) (added : Nat) (flog : List (List Char)) (ins : List EventBody),
      ∀ b ∈ (syncLoop today insertOk (cs.map Candidate.toJson) added flog ins).inserted,
        b ∈ ins ∨ ∃ c ∈ cs, ∃ dt, resolve_date today c.dateStr = some dt ∧
          b = mkEventBody (Json.str (c.event.getD ("Untitled Event".data))) dt := by
  intro cs
  induction cs with
  | nil =>
    intro added flog ins b hb
    exact Or.inl (by simpa [syncLoop] using hb)
  | cons c cs ih =>
    intro added flog ins b hb
    rw [List.map_cons, syncLoop_cand_cons] at hb
    cases hres : resolve_date today c.dateStr with
    | none =>
      rw [hres] at hb
      rcases ih added (flog ++ [c.dateStr]) ins b hb with h | ⟨c2, hc2, dt, hdt, hbe⟩
      · exact Or.inl h
      · exact Or.inr ⟨c2, List.mem_cons_of_mem c hc2, dt, hdt, hbe⟩
    | some dt =>
      rw [hres] at hb
      by_cases hins : insertOk ins.length = true
      · rw [hins] at hb
        simp only [if_true] at hb
        rcases ih (added + 1) flog _ b hb with h | ⟨c2, hc2, dt2, hdt2, hbe⟩
        · rcases List.mem_append.mp h with h2 | h2
          · exact Or.inl h2
          · refine Or.inr ⟨c, List.mem_cons_self c cs, dt, hres, ?_⟩
            simpa using h2
        · exact Or.inr ⟨c2, List.mem_cons_of_mem c hc2, dt2, hdt2, hbe⟩
      · rw [Bool.not_eq_true] at hins
        rw [hins] at hb
        simp only [Bool.false_eq_true, if_false] at hb
        rcases List.mem_append.mp hb with h2 | h2
        · exact Or.inl h2
        · refine Or.inr ⟨c, List.mem_cons_self c cs, dt, hres, by simpa using h2⟩

/-- **C8**: every request body handed to the calendar insert call is an
all-day event: start and end both equal the resolved date rendered
`%Y-%m-%d`, both carry the fixed timezone `America/New_York`; the summary
is the candidate's event name, defaulting to `"Untitled Event"` when the
oracle omitted it; and the description is the fixed import note. -/
theorem c8_insert_request_shape (cs : List Candidate) (today : Date3)
    (insertOk : Nat → Bool) :
    ∀ b ∈ (syncCandidates cs today insertOk).inserted,
      ∃ c ∈ cs, ∃ dt, resolve_date today c.dateStr = some dt ∧
        b.summary = Json.str (c.event.getD ("Untitled Event".data)) ∧
        b.startDate = fmtYmd dt ∧ b.endDate = fmtYmd dt ∧
        b.startTimeZone = ("America/New_York".data) ∧
        b.endTimeZone = ("America/New_York".data) ∧
        b.description = ("Imported from syllabus".data) := by
  intro b hb
  rcases syncLoop_inserted_shape today insertOk cs 0 [] [] b hb with h | ⟨c, hc, dt, hdt, hbe⟩
  · simp at h
  · exact ⟨c, hc, dt, hdt, by rw [hbe]; exact ⟨rfl, rfl, rfl, rfl, rfl, rfl⟩⟩

/-- Witness for **C8**: the single body produced for `{"event": "A",
"date": "Sept 5"}`. -/
theorem c8_witness :
    ∃ c ∈ [(⟨some ("A".data), some ("Sept 5".data)⟩ : Candidate)], ∃ dt,
      resolve_date ⟨2025, 3, 7⟩ c.dateStr = some dt ∧
      (mkEventBody (Json.str ("A".data)) ⟨2025, 9, 5, 0, 0, 0⟩).summary =
        Json.str (c.event.getD ("Untitled Event".data)) ∧
      (mkEventBody (Json.str ("A".data)) ⟨2025, 9, 5, 0, 0, 0⟩).startDate = fmtYmd dt ∧
      (mkEventBody (Json.str ("A".data)) ⟨2025, 9, 5, 0, 0, 0⟩).endDate = fmtYmd dt ∧
      (mkEventBody (Json.str ("A".data)) ⟨2025, 9, 5, 0, 0, 0⟩).startTimeZone =
        ("America/New_York".data) ∧
      (mkEventBody (Json.str ("A".data)) ⟨2025, 9, 5, 0, 0, 0⟩).endTimeZone =
        ("America/New_York".data) ∧
      (mkEventBody (Json.str ("A".data)) ⟨2025, 9, 5, 0, 0, 0⟩).description =
        ("Imported from syllabus".data) :=
  c8_insert_request_shape [⟨some ("A".data), some ("Sept 5".data)⟩] ⟨2025, 3, 7⟩
    (fun _ => true) (mkEventBody (Json.str ("A".data)) ⟨2025, 9, 5, 0, 0, 0⟩)
    (show _ ∈ [mkEventBody (Json.str ("A".data)) ⟨2025, 9, 5, 0, 0, 0⟩] from
      List.mem_singleton_self _)

/-! ### RegexDateExtractor (C9) -/

/-- **C9**: the regex date extractor returns matched date substrings in
order of first appearance (the match list is sorted by position, with
duplicates preserved by construction), and on the spec's scenario input it
returns exactly `["September 15", "10/20/2025"]`. -/
theorem c9_regex_extractor :
    extractDates "Assignment 1 is due September 15. Midterm on 10/20/2025." =
      ["September 15", "10/20/2025"] ∧
    ∀ text : String, (regexMatches text).Sorted posLE := by
  constructor
  · rfl
  · intro text
    exact List.sorted_insertionSort posLE _

/-! ### C7: the explicit year wins (amended) -/

theorem ymdWF_empty : ymdWF {} := by
  refine ⟨?_, ?_, ?_, ?_, ?_, ?_⟩ <;> intro j hj <;> exact absurd hj (by simp)

theorem natDigits_ne_colon (Y : Nat) : (natDigits Y == [':']) = false := by
  rcases hb : natDigits Y == [':'] with _ | _
  · rfl
  · have heq := eq_of_beq hb
    have := natDigits_all_digit Y
    rw [heq] at this
    exact absurd this (by decide)

/-- The appended token list `tokens(raw) ++ [" ", refYear]` is clean when
the raw tokens are. -/
theorem cleanToks_append {toks : List (List Char)} {Y : Nat}
    (hclean : ∀ t ∈ toks, hmsVal t = none ∧ ampmVal t = none ∧ t ≠ [':']) :
    cleanToks (toks ++ [[' '], natDigits Y]) := by
  intro j
  by_cases hj : j < toks.length
  · rw [tokAt, getD_append_left _ _ hj, List.getD_eq_getElem _ _ hj]
    obtain ⟨h1, h2, h3⟩ := hclean _ (List.getElem_mem hj)
    exact ⟨h1, h2, by rwa [beq_eq_false_iff_ne]⟩
  · by_cases hj2 : j = toks.length
    · rw [tokAt, hj2, getD_append_self]
      exact ⟨by decide, by decide, by decide⟩
    · by_cases hj3 : j = toks.length + 1
      · have : toks ++ [[' '], natDigits Y] = (toks ++ [[' ']]) ++ [natDigits Y] := by
          simp
        rw [tokAt, hj3, this,
          show toks.length + 1 = (toks ++ [[' ']]).length by simp, getD_append_self]
        exact ⟨hmsVal_num (isNumTok_natDigits Y), ampmVal_num (isNumTok_natDigits Y),
          natDigits_ne_colon Y⟩
      · rw [tokAt, List.getD_eq_default]
        · exact ⟨rfl, rfl, rfl⟩
        · simp only [List.length_append, List.length_cons, List.length_nil]
          omega

/-- **C7** (amended): if the raw date string contains an explicit 4-digit
year token (value above 100) and none of its tokens is an hour/minute/
second unit label, an am/pm marker or a `':'`, then whenever the
resolution step accepts the string, the resolved year equals that explicit
year — the appended reference year cannot override it. -/
theorem c7_amended_explicit_year_wins (raw : List Char) (today : Date3)
    (dt : PyDateTime) (toks : List (List Char)) (v : Nat)
    (htok : tokenize raw = some toks)
    (hclean : ∀ t ∈ toks, hmsVal t = none ∧ ampmVal t = none ∧ t ≠ [':'])
    (hv : v ∈ explicitYearTokens raw)
    (hy1 : 1000 ≤ today.year) (hy2 : today.year ≤ 9999)
    (hres : resolve_date today raw = some dt) :
    dt.year = v := by
  rw [explicitYearTokens, htok] at hv
  simp only [Option.getD_some] at hv
  obtain ⟨tp, htpmem, hf⟩ := List.mem_filterMap.mp hv
  have hcond : (tp.length = 4 && isNumTok tp && 100 < natOfDigits tp) = true := by
    by_cases hc : (tp.length = 4 && isNumTok tp && 100 < natOfDigits tp) = true
    · exact hc
    · rw [if_neg hc] at hf
      exact absurd hf (by simp)
  rw [if_pos hcond] at hf
  have hf2 := Option.some.inj hf
  simp only [Bool.and_eq_true, decide_eq_true_eq] at hcond
  obtain ⟨⟨hlen4, hnumtp⟩, h100⟩ := hcond
  rw [hf2] at h100
  obtain ⟨p, hgetp⟩ := List.mem_iff_get?.mp htpmem
  have hpn : p < toks.length := by
    by_cases hp : p < toks.length
    · exact hp
    · rw [List.get?_eq_none.mpr (by omega)] at hgetp
      exact absurd hgetp (by simp)
  have hcleanl := cleanToks_append (Y := today.year) hclean
  have hln : (toks ++ [[' '], natDigits today.year]).length = toks.length + 2 := by
    simp
  have htp : tokAt (toks ++ [[' '], natDigits today.year]) p = tp := by
    rw [tokAt, getD_append_left _ _ hpn]
    rw [List.get?_eq_getElem?] at hgetp
    rw [List.getD_eq_getElem?_getD, hgetp]
    rfl
  have hyd : tokAt (toks ++ [[' '], natDigits today.year]) (toks.length + 1) =
      natDigits today.year := by
    have hsplit : toks ++ [[' '], natDigits today.year] =
        (toks ++ [[' ']]) ++ [natDigits today.year] := by simp
    rw [tokAt, hsplit, show toks.length + 1 = (toks ++ [[' ']]).length by simp,
      getD_append_self]
  rw [resolve_date, duParse] at hres
  obtain ⟨r, hr, hbuild⟩ := Option.bind_eq_some.mp hres
  rw [duParseRes, tokenize_append_year today.year htok] at hr
  dsimp only at hr
  rcases hpl : ploop today.year (toks ++ [[' '], natDigits today.year])
      ((toks ++ [[' '], natDigits today.year]).length + 1) 0 {} with _ | stF
  · rw [hpl] at hr
    exact absurd hr (by simp)
  · rw [hpl] at hr
    dsimp only at hr
    obtain ⟨hwfF, hAD⟩ := ploop_inv today.year hcleanl hln hpn htp hlen4 hnumtp hf2
      h100 (by rw [hyd]; exact natDigits_length_four hy1 hy2)
      (by rw [hyd]; exact isNumTok_natDigits _) _ ymdWF_empty (Or.inl (Nat.zero_le p)) hpl
    rcases hAD with hA | hD
    · obtain ⟨k, hk, hkv⟩ := hA
      rcases hry : resolveYmd stF.ymd with _ | trip
      · rw [hry] at hr
        exact absurd hr (by simp)
      · obtain ⟨yy, mm, dd⟩ := trip
        rw [hry] at hr
        dsimp only at hr
        obtain rfl := Option.some.inj hr
        rcases resolveYmd_year hwfF hk hkv h100 hry with hyy | ⟨w, hw, h12⟩ | ⟨w, hw, h31⟩
        · dsimp only at hyy
          rw [buildNaive_year (w := v) (by
            dsimp only
            rw [hyy]
            simp only [Option.map_some']
            rw [convertyear_gt100 _ _ h100]) hbuild]
        · dsimp only at hw
          rw [buildNaive_bad_month (w := w) (by dsimp only; exact hw) h12] at hbuild
          exact absurd hbuild (by simp)
        · dsimp only at hw
          rw [buildNaive_bad_day (w := w) (by dsimp only; exact hw) h31] at hbuild
          exact absurd hbuild (by simp)
    · rw [resolveYmd_gt3 hD] at hr
      exact absurd hr (by simp)

/-- Witness for **C7** (amended): `"Sept 5 2024"` resolves (under clock
date 2025-03-07) to September 5, 2024 — the explicit year wins over the
appended reference year 2025. -/
theorem c7_amended_witness :
    resolve_date ⟨2025, 3, 7⟩ ("Sept 5 2024".data) = some ⟨2024, 9, 5, 20, 25, 0⟩ ∧
    (2024 : Nat) ∈ explicitYearTokens ("Sept 5 2024".data) ∧
    (⟨2024, 9, 5, 20, 25, 0⟩ : PyDateTime).year = 2024 :=
  ⟨rfl, by decide,
    c7_amended_explicit_year_wins ("Sept 5 2024".data) ⟨2025, 3, 7⟩
      ⟨2024, 9, 5, 20, 25, 0⟩
      [['S', 'e', 'p', 't'], [' '], ['5'], [' '], ['2', '0', '2', '4']] 2024
      rfl (by decide) (by decide) (by decide) (by decide) rfl⟩

end SylCal
